import Mathlib

/-!
Verification of the apachelog format-driven access-log line parser.

The Go sources are shallowly embedded: Go strings become lists of
characters (all inputs of interest are ASCII), byte positions become
natural numbers, fallible functions return an explicit result type, and
a Go runtime fault (index out of range, call of a nil function) is a
distinguished outcome.  Field names and function names follow the
source files access.go and format.go.
-/

namespace Apachelog

/-- Go string modelled as a list of characters. -/
abbrev Str := List Char

/-- Result of a Go function that may return an error or fault at runtime.
The fault constructor models a Go runtime panic such as an index out of
range or a call through a nil function value. -/
inductive GoRes (α : Type) where
  | ok (a : α)
  | err (msg : String)
  | fault
  deriving DecidableEq, Repr

/-- Index of the first character satisfying p, as in Go strings.Index /
strings.IndexAny (which return -1, modelled by none). -/
def goIndex (p : Char → Bool) : Str → Option Nat
  | [] => none
  | c :: t => if p c then some 0 else (goIndex p t).map (· + 1)

/-- Character of a string at a position; none models an index out of range. -/
def charAt (s : Str) (n : Nat) : Option Char :=
  s.get? n

/-- The delimiter test of an unquoted token read: a space or a newline. -/
def isSpaceOrNl (c : Char) : Bool :=
  c = ' ' ∨ c = '\n'

/-- Go strings.Split with a single space separator: splits around every
space; the empty string yields one empty field. -/
def splitAux : Str → Str → List Str
  | [], acc => [acc.reverse]
  | c :: t, acc => if c = ' ' then acc.reverse :: splitAux t [] else splitAux t (c :: acc)

/-- Go strings.Split(s, " "). -/
def splitSpace (s : Str) : List Str :=
  splitAux s []

/-- Go strings.Trim(s, quote): removes all leading and trailing double
quote characters. -/
def trimQuotes (s : Str) : Str :=
  ((s.dropWhile (· = '"')).reverse.dropWhile (· = '"')).reverse

/-- Go strings.TrimPrefix. -/
def goTrimLeading (pre s : Str) : Str :=
  if pre.isPrefixOf s then s.drop pre.length else s

/-- Go strings.TrimSuffix. -/
def goTrimTrailing (suf s : Str) : Str :=
  if suf.isSuffixOf s then s.take (s.length - suf.length) else s

def isDigit (c : Char) : Bool :=
  '0' ≤ c ∧ c ≤ '9'

def digitVal (c : Char) : Nat :=
  c.toNat - '0'.toNat

def natOfDigits (s : Str) : Nat :=
  s.foldl (fun a c => a * 10 + digitVal c) 0

/-- Go strconv.ParseInt(s, 10, 64): optional sign, a nonempty run of
decimal digits, and a signed 64-bit range check. -/
def goParseInt64 (s : Str) : Except String Int :=
  match s with
  | [] => .error "strconv.ParseInt: invalid syntax"
  | c :: t =>
    let signDigits : Bool × Str :=
      if c = '-' then (true, t) else if c = '+' then (false, t) else (false, c :: t)
    let ds := signDigits.2
    if ds = [] ∨ ¬ ds.all isDigit then .error "strconv.ParseInt: invalid syntax"
    else
      let n := natOfDigits ds
      if signDigits.1 then
        if n ≤ 2 ^ 63 then .ok (-(n : Int)) else .error "strconv.ParseInt: value out of range"
      else
        if n ≤ 2 ^ 63 - 1 then .ok (n : Int) else .error "strconv.ParseInt: value out of range"

/-! Model of Go time.Parse restricted to the fixed layout
"02/Jan/2006:15:04:05 -0700" (the StandardEnglishFormat constant).
Each helper mirrors the corresponding piece of the Go time package:
fixed two-digit numbers, one-or-two digit numbers, a three-letter
case-insensitive month name, a four-digit year, and a signed four-digit
numeric time zone.  The parse fails unless the whole input is consumed
and the hour, minute, second and day are in range. -/

/-- Parsed time value: date-time components, nanoseconds and a UTC
offset in minutes.  Go represents the result as a time.Time in a fixed
zone; the components below determine that instant exactly. -/
structure GoTime where
  year : Nat
  month : Nat
  day : Nat
  hour : Nat
  minute : Nat
  second : Nat
  nsec : Nat
  offsetMin : Int
  deriving DecidableEq, Repr

/-- The zero time.Time value (January 1, year 1, 00:00:00 UTC). -/
def zeroTime : GoTime := ⟨1, 1, 1, 0, 0, 0, 0, 0⟩

/-- Exactly two decimal digits (Go getnum with fixed width). -/
def getnum2 : Str → Option (Nat × Str)
  | a :: b :: t =>
    if isDigit a ∧ isDigit b then some (digitVal a * 10 + digitVal b, t) else none
  | _ => none

/-- One or two decimal digits (Go getnum without fixed width). -/
def getnum12 : Str → Option (Nat × Str)
  | [] => none
  | [a] => if isDigit a then some (digitVal a, []) else none
  | a :: b :: t =>
    if isDigit a then
      if isDigit b then some (digitVal a * 10 + digitVal b, t)
      else some (digitVal a, b :: t)
    else none

/-- A required literal character of the layout. -/
def litChar (c : Char) : Str → Option Str
  | [] => none
  | x :: t => if x = c then some t else none

/-- Three-letter English month name, case-insensitive, as in the Go time
package short month name lookup. -/
def month3 : Str → Option (Nat × Str)
  | a :: b :: c :: t =>
    let key : String := ⟨[a.toLower, b.toLower, c.toLower]⟩
    let num : Option Nat :=
      match key with
      | "jan" => some 1 | "feb" => some 2 | "mar" => some 3 | "apr" => some 4
      | "may" => some 5 | "jun" => some 6 | "jul" => some 7 | "aug" => some 8
      | "sep" => some 9 | "oct" => some 10 | "nov" => some 11 | "dec" => some 12
      | _ => none
    num.map (·, t)
  | _ => none

/-- Exactly four decimal digits (Go stdLongYear). -/
def year4 : Str → Option (Nat × Str)
  | a :: b :: c :: d :: t =>
    if isDigit a ∧ isDigit b ∧ isDigit c ∧ isDigit d then
      some (digitVal a * 1000 + digitVal b * 100 + digitVal c * 10 + digitVal d, t)
    else none
  | _ => none

/-- Signed four-digit numeric time zone, giving an offset in minutes
(Go stdNumTZ, layout -0700). -/
def zone5 : Str → Option (Int × Str)
  | sg :: a :: b :: c :: d :: t =>
    if (sg = '+' ∨ sg = '-') ∧ isDigit a ∧ isDigit b ∧ isDigit c ∧ isDigit d then
      let m : Int := ((digitVal a * 10 + digitVal b) * 60 + (digitVal c * 10 + digitVal d) : Nat)
      some (if sg = '-' then -m else m, t)
    else none
  | _ => none

/-- Optional fractional second immediately after the seconds field, as
accepted by Go time.Parse even when the layout lacks one: a comma or
decimal point followed by a maximal nonempty run of digits.  The
nanosecond value uses the first nine digits, scaled up when fewer are
present (Go parseNanoseconds with its byte-count clamp).  Anything else
consumes nothing. -/
def fracSecond (s : Str) : Nat × Str :=
  match s with
  | c :: d :: t =>
    if (c = '.' ∨ c = ',') ∧ isDigit d then
      let run := (d :: t).takeWhile isDigit
      (natOfDigits (run.take 9) * 10 ^ (9 - min run.length 9), (d :: t).drop run.length)
    else (0, s)
  | _ => (0, s)

/-- Days in a month, with the Gregorian leap rule, as used by the Go time
package to validate the day of the month. -/
def daysIn (year month : Nat) : Nat :=
  if month = 2 then
    if year % 4 = 0 ∧ (year % 100 ≠ 0 ∨ year % 400 = 0) then 29 else 28
  else if month = 4 ∨ month = 6 ∨ month = 9 ∨ month = 11 then 30
  else 31

/-- Go time.Parse("02/Jan/2006:15:04:05 -0700", s): none models a parse
error.  A fractional second may follow the seconds field even though the
layout has none; the whole input must be consumed and hour, minute,
second and day must be in range. -/
def parseStdEnglishTime (s : Str) : Option GoTime := do
  let (dd, s1) ← getnum2 s
  let s2 ← litChar '/' s1
  let (mo, s3) ← month3 s2
  let s4 ← litChar '/' s3
  let (yy, s5) ← year4 s4
  let s6 ← litChar ':' s5
  let (hh, s7) ← getnum12 s6
  let s8 ← litChar ':' s7
  let (mi, s9) ← getnum2 s8
  let s10 ← litChar ':' s9
  let (ss, s11) ← getnum2 s10
  let fs := fracSecond s11
  let s12 ← litChar ' ' fs.2
  let (off, s13) ← zone5 s12
  if s13 = [] ∧ hh < 24 ∧ mi < 60 ∧ ss < 60 ∧ 1 ≤ dd ∧ dd ≤ daysIn yy mo then
    some ⟨yy, mo, dd, hh, mi, ss, fs.1, off⟩
  else none

/-- Error message produced by the model for a failed time.Parse of the
standard english format (the Go message carries more detail; only the
wrapping by readDateTime is observable in the claims). -/
def timeParseErrMsg (s : Str) : String :=
  "parsing time \"" ++ String.mk s ++ "\" as \"02/Jan/2006:15:04:05 -0700\": layout mismatch"

/-! Request first line (access.go, RequestFirstLine).  The Go methods use
a pointer receiver and memoize by mutating the struct; each accessor is
modelled as a function returning the value together with the updated
struct. -/

/-- RequestFirstLine holds the raw first line of the HTTP request plus
lazily decoded fields and the two memoization flags. -/
structure RequestFirstLine where
  raw : Str
  method : Str
  path : Str
  pathParsed : Str
  proto : Str
  parsedPath : Bool
  parsed : Bool
  deriving DecidableEq, Repr

/-- NewRequestFirstLine: initializes the structure with the raw line only. -/
def NewRequestFirstLine (raw : Str) : RequestFirstLine :=
  ⟨raw, [], [], [], [], false, false⟩

/-- Go url.PathUnescape: percent-decoding where every percent sign must
be followed by two hexadecimal digits; none models the escape error. -/
def pathUnescape : Str → Option Str
  | [] => some []
  | '%' :: a :: b :: t =>
    if isHexChar a ∧ isHexChar b then
      (pathUnescape t).map (Char.ofNat (16 * hexVal a + hexVal b) :: ·)
    else none
  | '%' :: _ => none
  | c :: t => (pathUnescape t).map (c :: ·)
where
  isHexChar (c : Char) : Bool :=
    isDigit c ∨ ('a' ≤ c ∧ c ≤ 'f') ∨ ('A' ≤ c ∧ c ≤ 'F')
  hexVal (c : Char) : Nat :=
    if isDigit c then digitVal c
    else if 'a' ≤ c ∧ c ≤ 'f' then c.toNat - 'a'.toNat + 10
    else if 'A' ≤ c ∧ c ≤ 'F' then c.toNat - 'A'.toNat + 10
    else 0

/-- RequestFirstLine.parse: lazily splits the raw text on spaces; only a
raw value of exactly three parts populates the fields and sets the
parsed flag. -/
def rflParse (r : RequestFirstLine) : RequestFirstLine :=
  if r.parsed ∨ r.raw = [] then r
  else
    match splitSpace r.raw with
    | [m, p, pr] => { r with method := m, path := p, proto := pr, parsed := true }
    | _ => r

/-- RequestFirstLine.Method. -/
def rflMethod (r : RequestFirstLine) : Str × RequestFirstLine :=
  let r1 := rflParse r
  (r1.method, r1)

/-- RequestFirstLine.RawPath. -/
def rflRawPath (r : RequestFirstLine) : Str × RequestFirstLine :=
  let r1 := rflParse r
  (r1.path, r1)

/-- The memo write of the Path accessor: stores the decoded path and sets
the parsedPath flag. -/
def rflWithPathMemo (r1 : RequestFirstLine) (v : Str) : RequestFirstLine :=
  { r1 with pathParsed := v, parsedPath := true }

/-- RequestFirstLine.Path: percent-decodes the path, falling back to the
raw path on a decode failure, and memoizes the result. -/
def rflPath (r : RequestFirstLine) : Str × RequestFirstLine :=
  let r1 := rflParse r
  if r1.parsedPath then (r1.pathParsed, r1)
  else
    match pathUnescape r1.path with
    | some p => (p, rflWithPathMemo r1 p)
    | none => (r1.path, rflWithPathMemo r1 r1.path)

/-- RequestFirstLine.Protocol. -/
def rflProtocol (r : RequestFirstLine) : Str × RequestFirstLine :=
  let r1 := rflParse r
  (r1.proto, r1)

/-! Access log entry (access.go, AccessLogEntry).  Maps are modelled as
association lists with Go map assignment semantics. -/

/-- AccessLogEntry: the output record, one field per Go struct field.
64-bit integer fields are modelled as Int (values are range-checked by
the integer parsers). -/
structure AccessLogEntry where
  RemoteIPAddr : Str
  LocalIPAddr : Str
  ResponseSize : Int
  Cookies : List (Str × Str)
  ElapsedTime : Int
  EnvVars : List (Str × Str)
  Headers : List (Str × Str)
  Filename : Str
  RemoteHost : Str
  RequestProto : Str
  KeepAliveRequests : Int
  RemoteLogname : Str
  RequestMethod : Str
  Port : Str
  ProcessID : Int
  QueryString : Str
  RequestFirstLine : RequestFirstLine
  Status : Str
  Time : GoTime
  ElapsedTimeSec : Int
  RemoteUser : Str
  URLPath : Str
  CanonicalServerName : Str
  ServerName : Str
  BytesReceived : Int
  BytesSent : Int
  deriving DecidableEq, Repr

/-- The entry allocated by Parser.Parse for each line: every field at its
zero value and the three maps freshly created empty. -/
def freshEntry : AccessLogEntry :=
  ⟨[], [], 0, [], 0, [], [], [], [], [], 0, [], [], [], 0, [],
   NewRequestFirstLine [], [], zeroTime, 0, [], [], [], [], 0, 0⟩

/-- Go map assignment m[k] = v on an association list. -/
def mapSet (m : List (Str × Str)) (k v : Str) : List (Str × Str) :=
  if m.any (fun p => p.1 = k) then
    m.map (fun p => if p.1 = k then (k, v) else p)
  else m ++ [(k, v)]

/-- Go map read m[k] on an association list. -/
def mapGet (m : List (Str × Str)) (k : Str) : Option Str :=
  (m.find? (fun p => p.1 = k)).map (·.2)

/-! Directive registry (format.go). -/

/-- Format: the enumerated directive kinds of format.go, including the
unknown sentinel.  ELAPSED_TIME_IN_SEC appears in the makeStateFn switch
of access.go but has no entry in the registry table, so LookupFormat
never produces it. -/
inductive Format where
  | REMOTE_IP_ADDRESS | LOCAL_IP_ADDRESS | RESPONSE_SIZE | RESPONSE_SIZE_CLF
  | COOKIE | ELAPSED_TIME | ENV_VAR | HEADER | FILENAME | REMOTE_HOST
  | REQUEST_PROTO | REMOTE_LOGNAME | REQUEST_METHOD | PORT | PROCESS_ID
  | QUERY_STRING | REQUEST_FIRST_LINE | STATUS | TIME | REMOTE_USER
  | URL_PATH | CANONICAL_SERVER_NAME | SERVER_NAME | BYTES_RECEIVED
  | BYTES_SENT | ELAPSED_TIME_IN_SEC | UNKNOWN
  deriving DecidableEq, Repr

/-- LookupFormat: exact lookup of a directive string in the registry
table built by the format.go init function.  Note that the named forms
are stored literally, brace-ellipsis included. -/
def LookupFormat (s : Str) : Format :=
  match String.mk s with
  | "%a" => .REMOTE_IP_ADDRESS
  | "%A" => .LOCAL_IP_ADDRESS
  | "%B" => .RESPONSE_SIZE
  | "%b" => .RESPONSE_SIZE_CLF
  | "%\x7b...\x7dC" => .COOKIE
  | "%D" => .ELAPSED_TIME
  | "%\x7b...\x7de" => .ENV_VAR
  | "%\x7b...\x7di" => .HEADER
  | "%f" => .FILENAME
  | "%h" => .REMOTE_HOST
  | "%H" => .REQUEST_PROTO
  | "%l" => .REMOTE_LOGNAME
  | "%m" => .REQUEST_METHOD
  | "%p" => .PORT
  | "%P" => .PROCESS_ID
  | "%q" => .QUERY_STRING
  | "%r" => .REQUEST_FIRST_LINE
  | "%s" => .STATUS
  | "%t" => .TIME
  | "%u" => .REMOTE_USER
  | "%U" => .URL_PATH
  | "%v" => .CANONICAL_SERVER_NAME
  | "%V" => .SERVER_NAME
  | "%I" => .BYTES_RECEIVED
  | "%O" => .BYTES_SENT
  | _ => .UNKNOWN

/-! Primitive readers (access.go). -/

/-- extractFromQuotes: content of a quoted expression and the position of
the closing quote.  An empty input faults (Go indexes s[0]). -/
def extractFromQuotes : Str → GoRes (Str × Nat)
  | [] => .fault
  | c :: t =>
    if c ≠ '"' then .err ("got \x27" ++ c.toString ++ "\x27, want quote")
    else
      match goIndex (· = '"') t with
      | none => .err "missing closing quote"
      | some i => .ok (t.take i, i + 1)

/-- readString: next string value from the given position; quoted values
are delimited by double quotes, unquoted values end at the first space
or newline (or the end of the line). -/
def readString (line : Str) (pos : Nat) (quoted : Bool) : GoRes (Str × Nat) :=
  let input := line.drop pos
  if quoted then
    match extractFromQuotes input with
    | .ok (d, o) => .ok (d, o + 1)
    | .err e => .err e
    | .fault => .fault
  else
    match goIndex isSpaceOrNl input with
    | none => .ok (input, input.length)
    | some i => .ok (input.take i, i)

/-- readDateTime: next bracketed datetime value from the given position,
parsed with the standard english format.  For a quoted value the offset
stops at the closing quote (the quote-stripping path does not advance
past it). -/
def readDateTime (line : Str) (pos : Nat) (quoted : Bool) : GoRes (GoTime × Nat) :=
  let input := line.drop pos
  let dequoted : GoRes (Str × Nat) :=
    if quoted then extractFromQuotes input else .ok (input, 0)
  match dequoted with
  | .err e => .err e
  | .fault => .fault
  | .ok (inp, off0) =>
    match inp with
    | [] => .fault
    | c :: _ =>
      if c ≠ '[' then .err ("got \x27" ++ c.toString ++ "\x27, want \x27[\x27")
      else
        match goIndex (· = ']') inp with
        | none => .err "missing closing \x27]\x27"
        | some idx =>
          let off := if quoted then off0 else idx + 1
          match parseStdEnglishTime ((inp.drop 1).take (idx - 1)) with
          | some t => .ok (t, off)
          | none => .err ("failed to parse datetime: " ++ timeParseErrMsg ((inp.drop 1).take (idx - 1)))

/-- readInt: next integer value from the given position; the quoted flag
is accepted but unused in the source.  An empty remainder faults (Go
indexes input[0]). -/
def readInt (line : Str) (pos : Nat) (_quoted : Bool) : GoRes (Int × Nat) :=
  let input := line.drop pos
  match input with
  | [] => .fault
  | c :: t =>
    if ¬ isDigit c then .err ("got \x27" ++ c.toString ++ "\x27, want digit between 0 and 9")
    else
      let off := 1 + (t.takeWhile isDigit).length
      match goParseInt64 (input.take off) with
      | .ok n => .ok (n, off)
      | .error e => .err e

/-! Format compiler (access.go, makeStateFn) and chain executor.  The Go
code builds a chain of closures; here the chain is the list of compiled
directives and a single executor reproduces the shared glue of every
parseX closure (value extraction, cursor advance, separator skip, stop
at newline or at the end of the chain). -/

/-- FieldKind: the semantic kind a compiled directive extracts, one per
case of the makeStateFn switch. -/
inductive FieldKind where
  | host
  | logname
  | ruser
  | time
  | reqline
  | status
  | size
  | sizeCLF
  | elapsedSec
  | header (name : Str)
  deriving DecidableEq, Repr

/-- A compiled directive: its quoting mode and its field kind. -/
structure Dir where
  quoted : Bool
  kind : FieldKind
  deriving DecidableEq, Repr

/-- Header name extraction of the makeStateFn HEADER case:
TrimSuffix(TrimPrefix(formatStr, percent-brace), brace-i). -/
def headerName (formatStr : Str) : Str :=
  goTrimTrailing "\x7di".toList (goTrimLeading "%\x7b".toList formatStr)

/-- The quoted flag of a format token: strings.HasPrefix(formatStr, quote). -/
def isQuotedTok (tk : Str) : Bool :=
  tk.head? = some '"'

/-- The directive text resolved for a token: all boundary double quotes
trimmed when the token starts with one, the token itself otherwise. -/
def strippedTok (tk : Str) : Str :=
  if isQuotedTok tk then trimQuotes tk else tk

/-- The makeStateFn switch: the directive compiled for a resolved format
kind, or none for every kind the switch does not support (which includes
the unknown sentinel).  The HEADER case strips the brace wrapper from
the directive text to recover the header name. -/
def dirOfFormat (quoted : Bool) (formatStr : Str) : Format → Option Dir
  | .REMOTE_HOST => some ⟨quoted, .host⟩
  | .REMOTE_LOGNAME => some ⟨quoted, .logname⟩
  | .REMOTE_USER => some ⟨quoted, .ruser⟩
  | .TIME => some ⟨quoted, .time⟩
  | .REQUEST_FIRST_LINE => some ⟨quoted, .reqline⟩
  | .STATUS => some ⟨quoted, .status⟩
  | .RESPONSE_SIZE => some ⟨quoted, .size⟩
  | .RESPONSE_SIZE_CLF => some ⟨quoted, .sizeCLF⟩
  | .ELAPSED_TIME_IN_SEC => some ⟨quoted, .elapsedSec⟩
  | .HEADER => some ⟨quoted, .header (headerName formatStr)⟩
  | _ => none

/-- makeStateFn: compiles a token list right to left; the recursive call
for the remainder runs before the current token is resolved, so an error
from a later token takes precedence.  A token starting with a double
quote is marked quoted and trimmed of all boundary quotes before lookup. -/
def makeStateFn : List Str → Except String (List Dir)
  | [] => .ok []
  | tk :: rest =>
    match makeStateFn rest with
    | .error e => .error e
    | .ok next =>
      match dirOfFormat (isQuotedTok tk) (strippedTok tk) (LookupFormat (strippedTok tk)) with
      | some d => .ok (d :: next)
      | none => .error ("\"" ++ String.mk (strippedTok tk) ++ "\" format is not supported")

/-- Value extraction and field write of one directive, mirroring the body
of the matching parseX function before the shared cursor glue. -/
def applyDir (d : Dir) (e : AccessLogEntry) (line : Str) (pos : Nat) :
    GoRes (AccessLogEntry × Nat) :=
  match d.kind with
  | .host =>
    match readString line pos d.quoted with
    | .ok (s, o) => .ok ({ e with RemoteHost := s }, o)
    | .err m => .err m
    | .fault => .fault
  | .logname =>
    match readString line pos d.quoted with
    | .ok (s, o) => .ok ({ e with RemoteLogname := s }, o)
    | .err m => .err m
    | .fault => .fault
  | .ruser =>
    match readString line pos d.quoted with
    | .ok (s, o) => .ok ({ e with RemoteUser := s }, o)
    | .err m => .err m
    | .fault => .fault
  | .time =>
    match readDateTime line pos d.quoted with
    | .ok (t, o) => .ok ({ e with Time := t }, o)
    | .err m => .err m
    | .fault => .fault
  | .reqline =>
    match readString line pos d.quoted with
    | .ok (s, o) => .ok ({ e with RequestFirstLine := NewRequestFirstLine s }, o)
    | .err m => .err m
    | .fault => .fault
  | .status =>
    match readString line pos d.quoted with
    | .ok (s, o) => .ok ({ e with Status := s }, o)
    | .err m => .err m
    | .fault => .fault
  | .size =>
    match readInt line pos d.quoted with
    | .ok (n, o) => .ok ({ e with ResponseSize := n }, o)
    | .err m => .err m
    | .fault => .fault
  | .sizeCLF =>
    match readString line pos d.quoted with
    | .ok (s, o) =>
      if s = ['-'] then .ok (e, o)
      else
        match goParseInt64 s with
        | .ok n => .ok ({ e with ResponseSize := n }, o)
        | .error m => .err ("malformed response size: " ++ m)
    | .err m => .err m
    | .fault => .fault
  | .elapsedSec =>
    match readInt line pos d.quoted with
    | .ok (n, o) => .ok ({ e with ElapsedTimeSec := n }, o)
    | .err m => .err m
    | .fault => .fault
  | .header name =>
    match readString line pos d.quoted with
    | .ok (s, o) => .ok ({ e with Headers := mapSet e.Headers name s }, o)
    | .err m => .err m
    | .fault => .fault

/-- Chain execution: the shared glue of every parseX closure.  After the
extraction the cursor advances by the consumed offset, skips one
separator space if present, and stops successfully at the newline or at
the end of the chain; both cursor reads fault when out of range.
Running an empty chain models calling a nil state function, a fault. -/
def runChain : List Dir → AccessLogEntry → Str → Nat → GoRes AccessLogEntry
  | [], _, _, _ => .fault
  | d :: rest, e, line, pos =>
    match applyDir d e line pos with
    | .err m => .err m
    | .fault => .fault
    | .ok (e1, off) =>
      let newPos := pos + off
      match charAt line newPos with
      | none => .fault
      | some c =>
        let newPos1 := if c = ' ' then newPos + 1 else newPos
        match charAt line newPos1 with
        | none => .fault
        | some c1 =>
          if c1 = '\n' ∨ rest = [] then .ok e1
          else runChain rest e1 line newPos1

/-- The combined log format constant (the source spells it
CombinedLogFromat). -/
def CombinedLogFromat : String :=
  "%h %l %u %t \"%r\" %s %b \"%\x7bReferer\x7di\" \"%\x7bUser-agent\x7di\""

/-- The common log format constant. -/
def CommonLogFormat : String :=
  "%h %l %u %t \"%r\" %s %b"

/-- CustomParser, compilation part: split the format string on spaces and
build the chain (the reader argument is outside this model). -/
def customParserChain (format : String) : Except String (List Dir) :=
  makeStateFn (splitSpace format.toList)

/-! Streaming parser (access.go, Parser.Parse).  The buffered reader is
modelled by the remaining character stream; bufio ReadString reads up to
and including the newline, and returns the io.EOF error when the stream
ends before a newline, in which case Parser.Parse returns no entry. -/

/-- Outcome of one Parser.Parse call: an entry, a parse failure carrying
the error message, the io.EOF end-of-stream signal, or a runtime fault.
In Go the method returns an entry pointer and an error; the outcomes are
mutually exclusive, with io.EOF distinct from every failure message. -/
inductive ParseOut where
  | entry (e : AccessLogEntry)
  | failure (msg : String)
  | eof
  | fault
  deriving DecidableEq, Repr

/-- One Parser.Parse call on the remaining stream: reads one line through
its newline, runs the chain on it from position 0 over a fresh entry,
and returns the outcome together with the rest of the stream. -/
def parseNext (chain : List Dir) (buf : Str) : ParseOut × Str :=
  match goIndex (· = '\n') buf with
  | none => (.eof, [])
  | some i =>
    let line := buf.take (i + 1)
    let rest := buf.drop (i + 1)
    match runChain chain freshEntry line 0 with
    | .ok e => (.entry e, rest)
    | .err m => (.failure m, rest)
    | .fault => (.fault, rest)

/-- Repeated Parser.Parse calls: the outcome of the (n+1)-th call. -/
def parseIter (chain : List Dir) : Nat → Str → ParseOut × Str
  | 0, buf => parseNext chain buf
  | n + 1, buf => parseIter chain n (parseNext chain buf).2

/-! Helper lemmas about the scanning primitives. -/

theorem goIndex_eq_none {p : Char → Bool} :
    ∀ {s : Str}, (∀ c ∈ s, p c = false) → goIndex p s = none := by
  intro s h
  induction s with
  | nil => rfl
  | cons a t ih =>
    simp only [goIndex, h a (List.mem_cons_self a t), ih fun c hc => h c (List.mem_cons_of_mem a hc)]
    rfl

theorem goIndex_append {p : Char → Bool} :
    ∀ (s : Str) (c : Char) (t : Str), (∀ x ∈ s, p x = false) → p c = true →
      goIndex p (s ++ c :: t) = some s.length := by
  intro s c t hs hc
  induction s with
  | nil => simp [goIndex, hc]
  | cons a s' ih =>
    have ha : p a = false := hs a (List.mem_cons_self a s')
    have ih' := ih fun x hx => hs x (List.mem_cons_of_mem a hx)
    simp [goIndex, ha, ih']

theorem take_append_len {α : Type} : ∀ (s t : List α), (s ++ t).take s.length = s := by
  intro s t
  induction s with
  | nil => rfl
  | cons a s' ih => simp [List.take, ih]

theorem drop_append_len {α : Type} : ∀ (s t : List α), (s ++ t).drop s.length = t := by
  intro s t
  induction s with
  | nil => rfl
  | cons a s' ih => simp [List.drop, ih]

theorem getq_append_len {α : Type} :
    ∀ (s : List α) (x : α) (t : List α), (s ++ x :: t).get? s.length = some x := by
  intro s x t
  induction s with
  | nil => rfl
  | cons a s' ih => simpa using ih

theorem getq_drop {α : Type} :
    ∀ (n : Nat) (l : List α) (m : Nat), (l.drop n).get? m = l.get? (n + m) := by
  intro n
  induction n with
  | zero => intro l m; simp
  | succ k ih =>
    intro l m
    cases l with
    | nil => simp
    | cons a t =>
      have := ih t m
      simp only [List.drop, this]
      have : k + 1 + m = (k + m) + 1 := by omega
      simp [this]

theorem charAt_of_drop {line w : Str} {pos : Nat} (h : line.drop pos = w) (k : Nat) :
    charAt line (pos + k) = w.get? k := by
  unfold charAt
  rw [← getq_drop, h]

/-- readString on an unquoted token followed by a space or newline reads
exactly the token. -/
theorem readString_unquoted {line : Str} {pos : Nat} {tk : Str} {c : Char} {t : Str}
    (hd : line.drop pos = tk ++ c :: t)
    (htk : ∀ x ∈ tk, x ≠ ' ' ∧ x ≠ '\n')
    (hc : c = ' ' ∨ c = '\n') :
    readString line pos false = .ok (tk, tk.length) := by
  have hidx : goIndex isSpaceOrNl (tk ++ c :: t) = some tk.length := by
    apply goIndex_append
    · intro x hx
      have := htk x hx
      simp [isSpaceOrNl, this.1, this.2]
    · rcases hc with h | h <;> simp [isSpaceOrNl, h]
  simp [readString, hd, hidx, take_append_len]

/-- readString on a quoted token reads the quoted content and consumes
through the closing quote and one more position. -/
theorem readString_quoted {line : Str} {pos : Nat} {tk : Str} {t : Str}
    (hd : line.drop pos = '"' :: tk ++ '"' :: t)
    (htk : ∀ x ∈ tk, x ≠ '"') :
    readString line pos true = .ok (tk, tk.length + 2) := by
  have hidx : goIndex (· = '"') (tk ++ '"' :: t) = some tk.length := by
    apply goIndex_append
    · intro x hx
      simp [htk x hx]
    · simp
  simp [readString, hd, extractFromQuotes, hidx, take_append_len]

/-- readDateTime on an unquoted well-bracketed value whose interior
parses: returns the parsed time and consumes through the bracket. -/
theorem readDateTime_unquoted_ok {line : Str} {pos : Nat} {interior rest : Str} {t : GoTime}
    (hd : line.drop pos = '[' :: interior ++ ']' :: rest)
    (hnb : ∀ c ∈ interior, c ≠ ']')
    (hp : parseStdEnglishTime interior = some t) :
    readDateTime line pos false = .ok (t, interior.length + 2) := by
  have hidx : goIndex (· = ']') ('[' :: (interior ++ ']' :: rest)) = some (interior.length + 1) := by
    have h2 : goIndex (· = ']') (interior ++ ']' :: rest) = some interior.length :=
      goIndex_append interior ']' rest (fun x hx => by simp [hnb x hx]) (by simp)
    simp [goIndex, h2]
  have hslice : ((interior ++ ']' :: rest).take (interior.length + 1 - 1)) = interior := by
    rw [show interior.length + 1 - 1 = interior.length from rfl]
    exact take_append_len _ _
  simp [readDateTime, hd, hidx, hslice, hp]

/-- readDateTime on an unquoted well-bracketed value whose interior does
not parse: returns the wrapped datetime error. -/
theorem readDateTime_unquoted_err {line : Str} {pos : Nat} {interior rest : Str}
    (hd : line.drop pos = '[' :: interior ++ ']' :: rest)
    (hnb : ∀ c ∈ interior, c ≠ ']')
    (hp : parseStdEnglishTime interior = none) :
    readDateTime line pos false = .err ("failed to parse datetime: " ++ timeParseErrMsg interior) := by
  have hidx : goIndex (· = ']') ('[' :: (interior ++ ']' :: rest)) = some (interior.length + 1) := by
    have h2 : goIndex (· = ']') (interior ++ ']' :: rest) = some interior.length :=
      goIndex_append interior ']' rest (fun x hx => by simp [hnb x hx]) (by simp)
    simp [goIndex, h2]
  have hslice : ((interior ++ ']' :: rest).take (interior.length + 1 - 1)) = interior := by
    rw [show interior.length + 1 - 1 = interior.length from rfl]
    exact take_append_len _ _
  simp [readDateTime, hd, hidx, hslice, hp]

/-- readDateTime on a bracket-opened value with no closing bracket. -/
theorem readDateTime_missing_bracket {s : Str} {u : Str}
    (hs : s = '[' :: u) (hnb : ∀ c ∈ s, c ≠ ']') :
    readDateTime s 0 false = .err "missing closing \x27]\x27" := by
  have hidx : goIndex (· = ']') s = none :=
    goIndex_eq_none fun c hc => by simp [hnb c hc]
  subst hs
  simp [readDateTime, hidx]

/-! Claim theorems. -/

/-- C2 (code bug evidence): the registry stores the header directive
literally as percent-brace-ellipsis-brace-i, so LookupFormat maps the
real named token for the Referer header to the unknown sentinel, a
single quoted named header token fails to compile, and compiling the
preset combined format fails, naming its rightmost header token.  The
claim that named header tokens compile to header extractors (and that
the combined preset succeeds) describes the evident intent: the HEADER
switch case of makeStateFn strips a percent-brace name wrapper that can
never reach it, and the package example drives CombinedParser to
success. -/
theorem header_directive_rejected :
    LookupFormat "%\x7bReferer\x7di".toList = Format.UNKNOWN
    ∧ makeStateFn ["\"%\x7bReferer\x7di\"".toList]
      = .error "\"%\x7bReferer\x7di\" format is not supported"
    ∧ customParserChain CombinedLogFromat
      = .error "\"%\x7bUser-agent\x7di\" format is not supported" :=
  ⟨rfl, rfl, rfl⟩

/-- C3 (counterexample): compiling the empty format string fails, because
Go strings.Split turns the empty string into one empty token and the
empty token resolves to the unknown sentinel. -/
theorem empty_format_compile_fails :
    customParserChain "" = .error "\"\" format is not supported" :=
  rfl

/-- C3 (amended): an empty or absent token list compiles to the empty
chain with no error, but the empty format string itself does not: it
splits into a single empty token, so CustomParser fails naming that
empty token. -/
theorem empty_expr_ok_empty_format_fails :
    makeStateFn [] = .ok []
    ∧ splitSpace "".toList = [[]]
    ∧ customParserChain "" = .error "\"\" format is not supported" :=
  ⟨rfl, rfl, rfl⟩

/-- C5 (counterexample): a response-size token that is neither the single
dash nor a run of decimal digits does not necessarily fail the parse:
the token -5 is accepted by strconv.ParseInt and stores -5 in the
ResponseSize field. -/
theorem clf_negative_token_parses :
    runChain [⟨false, FieldKind.sizeCLF⟩] freshEntry ("-5".toList ++ ['\n']) 0
      = .ok { freshEntry with ResponseSize := -5 }
    ∧ "-5".toList ≠ ['-']
    ∧ ("-5".toList.all isDigit) = false := by
  refine ⟨by decide, by decide, by decide⟩

/-- C5 (amended): for the CLF response-size directive, the token read at
the cursor behaves as follows: the single dash leaves the ResponseSize
field at its prior (zero) value and the parse succeeds; any other token
is handed to strconv.ParseInt with base 10 and bit size 64, a success
stores exactly the parsed integer (signs are accepted), and a failure
(non-integer syntax or 64-bit overflow) aborts the parse with the
malformed-response-size error. -/
theorem clf_size_behavior (tk : Str) (htk : ∀ x ∈ tk, x ≠ ' ' ∧ x ≠ '\n') :
    runChain [⟨false, FieldKind.sizeCLF⟩] freshEntry (tk ++ ['\n']) 0 =
      if tk = ['-'] then .ok freshEntry
      else
        match goParseInt64 tk with
        | .ok n => .ok { freshEntry with ResponseSize := n }
        | .error m => .err ("malformed response size: " ++ m) := by
  have hd : (tk ++ ['\n']).drop 0 = tk ++ '\n' :: [] := by simp
  have hrs := readString_unquoted hd htk (Or.inr rfl)
  have hat : charAt (tk ++ ['\n']) tk.length = some '\n' := by
    have h := charAt_of_drop hd tk.length
    rw [Nat.zero_add] at h
    rw [h]
    exact getq_append_len tk '\n' []
  by_cases hdash : tk = ['-']
  · subst hdash
    decide
  · cases hpi : goParseInt64 tk with
    | ok n => simp [runChain, applyDir, hrs, hdash, hat, hpi]
    | error m => simp [runChain, applyDir, hrs, hdash, hat, hpi]

/-- C5 (witness): the amended behavior evaluated at the digit token
50122. -/
theorem clf_size_behavior_witness :
    runChain [⟨false, FieldKind.sizeCLF⟩] freshEntry ("50122".toList ++ ['\n']) 0 =
      if "50122".toList = ['-'] then .ok freshEntry
      else
        match goParseInt64 "50122".toList with
        | .ok n => .ok { freshEntry with ResponseSize := n }
        | .error m => .err ("malformed response size: " ++ m) :=
  clf_size_behavior "50122".toList (by decide)

/-- C7: compiling the common format and parsing the example line yields
the expected record: remote host 127.0.0.1, logname and user dashes,
the timestamp 2016-12-12 10:57:30 at UTC offset +01:00, the raw request
first line whose lazy accessors decode method GET, path /a and protocol
HTTP/1.1, status 200 and response size 50122. -/
theorem common_example_end_to_end :
    customParserChain "%h %l %u %t \"%r\" %s %b" =
      .ok [⟨false, .host⟩, ⟨false, .logname⟩, ⟨false, .ruser⟩, ⟨false, .time⟩,
           ⟨true, .reqline⟩, ⟨false, .status⟩, ⟨false, .sizeCLF⟩]
    ∧ runChain
        [⟨false, .host⟩, ⟨false, .logname⟩, ⟨false, .ruser⟩, ⟨false, .time⟩,
         ⟨true, .reqline⟩, ⟨false, .status⟩, ⟨false, .sizeCLF⟩]
        freshEntry
        "127.0.0.1 - - [12/Dec/2016:10:57:30 +0100] \"GET /a HTTP/1.1\" 200 50122\n".toList 0 =
      .ok { freshEntry with
              RemoteHost := "127.0.0.1".toList,
              RemoteLogname := "-".toList,
              RemoteUser := "-".toList,
              Time := ⟨2016, 12, 12, 10, 57, 30, 0, 60⟩,
              RequestFirstLine := NewRequestFirstLine "GET /a HTTP/1.1".toList,
              Status := "200".toList,
              ResponseSize := 50122 }
    ∧ (rflMethod (NewRequestFirstLine "GET /a HTTP/1.1".toList)).1 = "GET".toList
    ∧ (rflPath (NewRequestFirstLine "GET /a HTTP/1.1".toList)).1 = "/a".toList
    ∧ (rflProtocol (NewRequestFirstLine "GET /a HTTP/1.1".toList)).1 = "HTTP/1.1".toList := by
  refine ⟨rfl, by decide, by decide, by decide, by decide⟩

/-- C1 (counterexample): the format built from the recognized tokens
quoted %t and %s, with a conforming line (a quoted bracketed timestamp,
a space, the status 200, a newline), compiles and parses without error,
but the produced record holds the quote character as the status instead
of the generated value 200: the quoted timestamp reader leaves the
cursor on the closing quote. -/
theorem roundtrip_fails_for_quoted_time :
    customParserChain "\"%t\" %s" = .ok [⟨true, .time⟩, ⟨false, .status⟩]
    ∧ runChain [⟨true, .time⟩, ⟨false, .status⟩] freshEntry
        "\"[16/Nov/2016:09:25:05 +0100]\" 200\n".toList 0 =
      .ok { freshEntry with Time := ⟨2016, 11, 16, 9, 25, 5, 0, 60⟩, Status := ['"'] }
    ∧ (['"'] : Str) ≠ "200".toList := by
  refine ⟨rfl, by decide, by decide⟩

/-- C6: the bracketed-timestamp reader on any input beginning with the
bracketed example returns the instant 2016-11-16 09:25:05 at UTC offset
+01:00 (60 minutes) and consumes 28 characters, through the closing
bracket; on input starting with an opening bracket but containing no
closing one it fails with the missing-closing-bracket error; on a
bracketed interior that does not match the fixed layout it fails with
the wrapped datetime parse error. -/
theorem readDateTime_boundary :
    (∀ rest : Str,
      readDateTime ("[16/Nov/2016:09:25:05 +0100]".toList ++ rest) 0 false
        = .ok (⟨2016, 11, 16, 9, 25, 5, 0, 60⟩, 28))
    ∧ (∀ s u : Str, s = '[' :: u → (∀ c ∈ s, c ≠ ']') →
        readDateTime s 0 false = .err "missing closing \x27]\x27")
    ∧ (∀ interior rest : Str, (∀ c ∈ interior, c ≠ ']') →
        parseStdEnglishTime interior = none →
        readDateTime ('[' :: (interior ++ ']' :: rest)) 0 false
          = .err ("failed to parse datetime: " ++ timeParseErrMsg interior)) := by
  refine ⟨?_, ?_, ?_⟩
  · intro rest
    have e1 : "[16/Nov/2016:09:25:05 +0100]".toList
        = ('[' :: "16/Nov/2016:09:25:05 +0100".toList) ++ [']'] := rfl
    have hd : ("[16/Nov/2016:09:25:05 +0100]".toList ++ rest).drop 0
        = ('[' :: "16/Nov/2016:09:25:05 +0100".toList) ++ ']' :: rest := by
      rw [e1]
      simp [List.append_assoc]
    have h := @readDateTime_unquoted_ok
      ("[16/Nov/2016:09:25:05 +0100]".toList ++ rest) 0
      "16/Nov/2016:09:25:05 +0100".toList rest
      ⟨2016, 11, 16, 9, 25, 5, 0, 60⟩ hd (by decide) (by decide)
    have hlen : ("16/Nov/2016:09:25:05 +0100".toList).length + 2 = 28 := by decide
    rw [hlen] at h
    exact h
  · intro s u hs hnb
    exact readDateTime_missing_bracket hs hnb
  · intro interior rest hnb hp
    have hd : (('[' :: (interior ++ ']' :: rest)).drop 0)
        = ('[' :: interior) ++ ']' :: rest := by simp
    exact readDateTime_unquoted_err hd hnb hp

/-- C6 (witness): the three cases evaluated at the concrete inputs of the
claim. -/
theorem readDateTime_boundary_witness :
    readDateTime ("[16/Nov/2016:09:25:05 +0100]".toList ++ ['\n']) 0 false
      = .ok (⟨2016, 11, 16, 9, 25, 5, 0, 60⟩, 28)
    ∧ readDateTime "[foobar".toList 0 false = .err "missing closing \x27]\x27"
    ∧ readDateTime ('[' :: ("2016-11-16 09:25:05 +0100".toList ++ ']' :: [])) 0 false
      = .err ("failed to parse datetime: " ++ timeParseErrMsg "2016-11-16 09:25:05 +0100".toList) := by
  have h := readDateTime_boundary
  exact ⟨h.1 ['\n'],
    h.2.1 "[foobar".toList "foobar".toList (by decide) (by decide),
    h.2.2 "2016-11-16 09:25:05 +0100".toList [] (by decide) (by decide)⟩

/-- C8: when the remaining stream holds no newline (the line source is
exhausted), Parser.Parse returns the end-of-stream signal with no entry,
and the drained stream means every subsequent call does the same; the
end-of-stream outcome is a distinct constructor from every parse failure
and from every entry result. -/
theorem parse_eof_after_exhaustion :
    (∀ (chain : List Dir) (buf : Str), '\n' ∉ buf →
      parseNext chain buf = (.eof, []))
    ∧ (∀ (chain : List Dir) (n : Nat), parseIter chain n [] = (.eof, []))
    ∧ (∀ m : String, ParseOut.eof ≠ ParseOut.failure m)
    ∧ (∀ e : AccessLogEntry, ParseOut.eof ≠ ParseOut.entry e) := by
  have hstep : ∀ (chain : List Dir) (buf : Str), '\n' ∉ buf →
      parseNext chain buf = (.eof, []) := by
    intro chain buf hb
    have hidx : goIndex (· = '\n') buf = none := by
      apply goIndex_eq_none
      intro c hc
      have : c ≠ '\n' := fun h => hb (h ▸ hc)
      simp [this]
    simp [parseNext, hidx]
  refine ⟨hstep, ?_, ?_, ?_⟩
  · intro chain n
    induction n with
    | zero => exact hstep chain [] (by simp)
    | succ k ih =>
      have h0 := hstep chain [] (by simp)
      simp [parseIter, h0, ih]
  · intro m h
    exact ParseOut.noConfusion h
  · intro e h
    exact ParseOut.noConfusion h

/-- C8 (witness): a stream holding only an unterminated fragment yields
the end-of-stream signal now and on later calls. -/
theorem parse_eof_after_exhaustion_witness :
    parseNext [⟨false, FieldKind.host⟩] "abc".toList = (.eof, [])
    ∧ parseIter [⟨false, FieldKind.host⟩] 5 [] = (.eof, [])
    ∧ ParseOut.eof ≠ ParseOut.failure "missing closing quote"
    ∧ ParseOut.eof ≠ ParseOut.entry freshEntry := by
  have h := parse_eof_after_exhaustion
  exact ⟨h.1 [⟨false, FieldKind.host⟩] "abc".toList (by decide),
    h.2.1 [⟨false, FieldKind.host⟩] 5,
    h.2.2.1 "missing closing quote",
    h.2.2.2 freshEntry⟩

/-! Lazy decode of the request first line: characterization lemmas. -/

theorem rflParse_spec (r : RequestFirstLine) :
    ((r.parsed = true ∨ r.raw = []) ∧ rflParse r = r)
    ∨ (¬(r.parsed = true ∨ r.raw = []) ∧
        ((∃ m p pr, splitSpace r.raw = [m, p, pr]
            ∧ rflParse r = { r with method := m, path := p, proto := pr, parsed := true })
         ∨ ((∀ m p pr, splitSpace r.raw ≠ [m, p, pr]) ∧ rflParse r = r))) := by
  unfold rflParse
  split
  next hc => exact Or.inl ⟨hc, rfl⟩
  next hc =>
    refine Or.inr ⟨hc, ?_⟩
    split
    next m p pr heq => exact Or.inl ⟨m, p, pr, heq, rfl⟩
    next hne => exact Or.inr ⟨fun m p pr hmp => hne m p pr hmp, rfl⟩

theorem rflParse_parsedPath (r : RequestFirstLine) :
    (rflParse r).parsedPath = r.parsedPath := by
  rcases rflParse_spec r with ⟨_, he⟩ | ⟨_, ⟨m, p, pr, _, he⟩ | ⟨_, he⟩⟩ <;> rw [he]

theorem rflParse_of_parsed {r : RequestFirstLine} (h : r.parsed = true) :
    rflParse r = r := by
  unfold rflParse
  simp [h]

theorem rflParse_idem (r : RequestFirstLine) : rflParse (rflParse r) = rflParse r := by
  rcases rflParse_spec r with ⟨_, he⟩ | ⟨_, ⟨m, p, pr, _, he⟩ | ⟨_, he⟩⟩
  · rw [he]
    exact he
  · rw [he]
    exact rflParse_of_parsed rfl
  · rw [he]
    exact he

theorem rflParse_update_stable (r1 : RequestFirstLine) (hr1 : rflParse r1 = r1) (v : Str) :
    rflParse (rflWithPathMemo r1 v) = rflWithPathMemo r1 v := by
  rcases rflParse_spec (rflWithPathMemo r1 v) with
    ⟨_, he⟩ | ⟨hc, ⟨m, p, pr, hsp, _⟩ | ⟨_, he⟩⟩
  · exact he
  · exfalso
    have hparsed : r1.parsed = false := by
      cases hb : r1.parsed
      · rfl
      · exact absurd (Or.inl hb) hc
    rcases rflParse_spec r1 with ⟨hc1, _⟩ | ⟨_, ⟨m1, p1, pr1, hsp1, he1⟩ | ⟨hne, _⟩⟩
    · rcases hc1 with hb | hb
      · rw [hparsed] at hb
        exact Bool.false_ne_true hb
      · exact hc (Or.inr hb)
    · rw [he1] at hr1
      have hcong := congrArg RequestFirstLine.parsed hr1
      rw [hparsed] at hcong
      simp at hcong
    · exact hne m p pr hsp
  · exact he

/-- C9: for any request first line whose path memo is unset, the Path
accessor returns the percent-decoded form of the (lazily decoded) raw
path when decoding succeeds and the raw path itself when decoding fails,
without signalling any error, and the result is memoized: calling Path
again on the updated value returns the same string and the same value. -/
theorem path_decode_fallback_memoized (r : RequestFirstLine) (h : r.parsedPath = false) :
    ((rflPath r).1 = match pathUnescape (rflParse r).path with
        | some p => p
        | none => (rflParse r).path)
    ∧ rflPath (rflPath r).2 = rflPath r := by
  have hpp : (rflParse r).parsedPath = false := by rw [rflParse_parsedPath]; exact h
  have hidem := rflParse_idem r
  have hmemo : ∀ v : Str,
      rflPath (rflWithPathMemo (rflParse r) v) = (v, rflWithPathMemo (rflParse r) v) := by
    intro v
    unfold rflPath
    rw [rflParse_update_stable (rflParse r) hidem v]
    simp [rflWithPathMemo]
  cases hpu : pathUnescape (rflParse r).path with
  | some p =>
    have h1 : rflPath r = (p, rflWithPathMemo (rflParse r) p) := by
      unfold rflPath
      simp [hpp, hpu]
    refine ⟨?_, ?_⟩
    · rw [h1]
    · rw [h1]
      exact hmemo p
  | none =>
    have h1 : rflPath r
        = ((rflParse r).path, rflWithPathMemo (rflParse r) (rflParse r).path) := by
      unfold rflPath
      simp [hpp, hpu]
    refine ⟨?_, ?_⟩
    · rw [h1]
    · rw [h1]
      exact hmemo (rflParse r).path

/-- C9 (witness): the accessor evaluated on a fresh first line holding an
encoded path. -/
theorem path_decode_fallback_memoized_witness :
    ((rflPath (NewRequestFirstLine "GET /a%2Fb HTTP/1.1".toList)).1 =
      match pathUnescape (rflParse (NewRequestFirstLine "GET /a%2Fb HTTP/1.1".toList)).path with
      | some p => p
      | none => (rflParse (NewRequestFirstLine "GET /a%2Fb HTTP/1.1".toList)).path)
    ∧ rflPath (rflPath (NewRequestFirstLine "GET /a%2Fb HTTP/1.1".toList)).2
      = rflPath (NewRequestFirstLine "GET /a%2Fb HTTP/1.1".toList) :=
  path_decode_fallback_memoized (NewRequestFirstLine "GET /a%2Fb HTTP/1.1".toList) (by decide)

/-- C10: a fresh request first line whose raw text is empty or does not
split into exactly three space-separated parts keeps every decoded field
at the empty default: Method, RawPath, Path and Protocol all return the
empty string. -/
theorem rfl_accessors_default_on_malformed (raw : Str)
    (h : raw = [] ∨ (splitSpace raw).length ≠ 3) :
    (rflMethod (NewRequestFirstLine raw)).1 = []
    ∧ (rflRawPath (NewRequestFirstLine raw)).1 = []
    ∧ (rflPath (NewRequestFirstLine raw)).1 = []
    ∧ (rflProtocol (NewRequestFirstLine raw)).1 = [] := by
  have hp : rflParse (NewRequestFirstLine raw) = NewRequestFirstLine raw := by
    rcases rflParse_spec (NewRequestFirstLine raw) with
      ⟨_, he⟩ | ⟨_, ⟨m, p, pr, hsp, _⟩ | ⟨_, he⟩⟩
    · exact he
    · exfalso
      rcases h with h | h
      · simp [NewRequestFirstLine, h, splitSpace, splitAux] at hsp
      · apply h
        have : (NewRequestFirstLine raw).raw = raw := rfl
        rw [this] at hsp
        rw [hsp]
        rfl
    · exact he
  refine ⟨?_, ?_, ?_, ?_⟩
  · unfold rflMethod
    rw [hp]
    rfl
  · unfold rflRawPath
    rw [hp]
    rfl
  · unfold rflPath
    rw [hp]
    simp [NewRequestFirstLine, pathUnescape]
  · unfold rflProtocol
    rw [hp]
    rfl

/-- C10 (witness): a two-part raw first line decodes to empty fields. -/
theorem rfl_accessors_default_on_malformed_witness :
    (rflMethod (NewRequestFirstLine "GET /test".toList)).1 = []
    ∧ (rflRawPath (NewRequestFirstLine "GET /test".toList)).1 = []
    ∧ (rflPath (NewRequestFirstLine "GET /test".toList)).1 = []
    ∧ (rflProtocol (NewRequestFirstLine "GET /test".toList)).1 = [] :=
  rfl_accessors_default_on_malformed "GET /test".toList (by decide)

/-! Compilation error reporting (claim C4). -/

/-- A token unsupported by the compiler: its stripped directive text
resolves to a format kind the makeStateFn switch rejects (including
everything that resolves to the unknown sentinel). -/
def unsupportedTok (tk : Str) : Bool :=
  (dirOfFormat (isQuotedTok tk) (strippedTok tk) (LookupFormat (strippedTok tk))).isNone

theorem makeStateFn_ok_of_no_unsupported :
    ∀ expr : List Str, expr.filter unsupportedTok = [] →
      ∃ ds, makeStateFn expr = .ok ds := by
  intro expr
  induction expr with
  | nil => exact fun _ => ⟨[], rfl⟩
  | cons tk rest ih =>
    intro hf
    rw [List.filter_cons] at hf
    by_cases hu : unsupportedTok tk = true
    · rw [if_pos hu] at hf
      exact absurd hf (List.cons_ne_nil tk _)
    · rw [if_neg hu] at hf
      obtain ⟨ds, hds⟩ := ih hf
      have hd : ∃ d, dirOfFormat (isQuotedTok tk) (strippedTok tk)
          (LookupFormat (strippedTok tk)) = some d := by
        cases hopt : dirOfFormat (isQuotedTok tk) (strippedTok tk)
            (LookupFormat (strippedTok tk)) with
        | none => exact absurd (by simp [unsupportedTok, hopt]) hu
        | some d => exact ⟨d, rfl⟩
      obtain ⟨d, hd⟩ := hd
      exact ⟨d :: ds, by simp [makeStateFn, hds, hd]⟩

/-- C4: for every token list containing at least one token the compiler
does not support, makeStateFn fails, regardless of the other tokens, and
the error names the stripped text of the rightmost (last) unsupported
token: the recursion resolves the remainder before the current token, so
the rightmost error wins. -/
theorem compile_error_names_last_unsupported (expr : List Str) (t : Str)
    (h : (expr.filter unsupportedTok).getLast? = some t) :
    makeStateFn expr = .error ("\"" ++ String.mk (strippedTok t) ++ "\" format is not supported") := by
  induction expr with
  | nil => simp at h
  | cons tk rest ih =>
    rw [List.filter_cons] at h
    cases hr : (rest.filter unsupportedTok).getLast? with
    | some t1 =>
      have hFne : rest.filter unsupportedTok ≠ [] := by
        intro hnil
        rw [hnil] at hr
        simp at hr
      have ht : ((if unsupportedTok tk then tk :: rest.filter unsupportedTok
          else rest.filter unsupportedTok).getLast?) = (rest.filter unsupportedTok).getLast? := by
        by_cases hu : unsupportedTok tk = true
        · rw [if_pos hu]
          cases hF : rest.filter unsupportedTok with
          | nil => exact absurd hF hFne
          | cons f fs => exact List.getLast?_cons_cons
        · rw [if_neg hu]
      rw [ht] at h
      have herr := ih h
      simp [makeStateFn, herr]
    | none =>
      have hFnil : rest.filter unsupportedTok = [] := List.getLast?_eq_none_iff.mp hr
      rw [hFnil] at h
      by_cases hu : unsupportedTok tk = true
      · rw [if_pos hu] at h
        simp at h
        subst h
        obtain ⟨ds, hds⟩ := makeStateFn_ok_of_no_unsupported rest hFnil
        have hnone : dirOfFormat (isQuotedTok tk) (strippedTok tk)
            (LookupFormat (strippedTok tk)) = none := by
          rw [unsupportedTok, Option.isNone_iff_eq_none] at hu
          exact hu
        simp [makeStateFn, hds, hnone]
      · rw [if_neg hu] at h
        simp at h

/-- C4 (witness): among two unsupported tokens surrounding a valid one,
the rightmost is named. -/
theorem compile_error_names_last_unsupported_witness :
    makeStateFn ["foo".toList, "%h".toList, "bar".toList]
      = .error ("\"" ++ String.mk (strippedTok "bar".toList) ++ "\" format is not supported") :=
  compile_error_names_last_unsupported ["foo".toList, "%h".toList, "bar".toList]
    "bar".toList (by decide)

/-! Round-trip machinery (claim C1): directive-shaped values, line
generation, and the expected field writes. -/

/-- A directive-shaped value: a plain token for the string-valued kinds,
a layout-conforming bracket interior with its parsed instant for the
timestamp kind, a digit run for the numeric kinds, or the CLF dash. -/
inductive DVal where
  | str (s : Str)
  | timev (interior : Str) (t : GoTime)
  | num (ds : Str)
  | clfNum (ds : Str)
  | clfDash
  deriving DecidableEq, Repr

/-- Character condition for unquoted token values: no space, no newline. -/
def tokenChars (s : Str) : Bool :=
  s.all fun c => !(isSpaceOrNl c)

/-- Character condition for quoted token values: no double quote and no
newline. -/
def quotedChars (s : Str) : Bool :=
  s.all fun c => !(c == '"') && !(c == '\n')

/-- Shape of a string value for a quoted or unquoted directive: quoted
values exclude the quote and newline characters; unquoted values are
nonempty and exclude the space and newline delimiters. -/
def strShape (quoted : Bool) (s : Str) : Bool :=
  if quoted then quotedChars s else !(s.isEmpty) && tokenChars s

/-- Shape of a digit-run value: nonempty decimal digits whose value fits
in a signed 64-bit integer. -/
def digitsShape (ds : Str) : Bool :=
  !(ds.isEmpty) && ds.all isDigit && decide (natOfDigits ds < 2 ^ 63)

/-- shapedB d v: the value v is shaped as directive d demands.  Timestamp
and numeric directives are restricted to unquoted form (the quoted
timestamp reader does not advance past its closing quote, and the plain
numeric reader ignores the quoted flag, so their quoted forms do not
round-trip); the only compilable header name is the literal ellipsis. -/
def shapedB (d : Dir) (v : DVal) : Bool :=
  match d.kind, v with
  | .host, .str s => strShape d.quoted s
  | .logname, .str s => strShape d.quoted s
  | .ruser, .str s => strShape d.quoted s
  | .status, .str s => strShape d.quoted s
  | .reqline, .str s => strShape d.quoted s
  | .header n, .str s => decide (n = "...".toList) && strShape d.quoted s
  | .time, .timev interior t =>
      !d.quoted && interior.all (fun c => !(c == ']'))
        && decide (parseStdEnglishTime interior = some t)
  | .size, .num ds => !d.quoted && digitsShape ds
  | .sizeCLF, .clfNum ds => !d.quoted && digitsShape ds
  | .sizeCLF, .clfDash => !d.quoted
  | _, _ => false

/-- The text a shaped value contributes to the log line. -/
def render (d : Dir) : DVal → Str
  | .str s => if d.quoted then '"' :: (s ++ ['"']) else s
  | .timev interior _ => '[' :: (interior ++ [']'])
  | .num ds => ds
  | .clfNum ds => ds
  | .clfDash => ['-']

/-- The format token that compiles to a directive (quote-wrapped when the
directive is quoted). -/
def tokenOf (d : Dir) : Str :=
  let base : Str :=
    match d.kind with
    | .host => "%h".toList
    | .logname => "%l".toList
    | .ruser => "%u".toList
    | .time => "%t".toList
    | .reqline => "%r".toList
    | .status => "%s".toList
    | .size => "%B".toList
    | .sizeCLF => "%b".toList
    | .elapsedSec => "%T".toList
    | .header _ => "%\x7b...\x7di".toList
  if d.quoted then '"' :: (base ++ ['"']) else base

/-- The record slot a directive writes: the two response-size directives
share one slot. -/
inductive Target where
  | host | logname | ruser | time | reqline | status | size | elapsed
  | header (n : Str)
  deriving DecidableEq, Repr

def targetOf : FieldKind → Target
  | .host => .host
  | .logname => .logname
  | .ruser => .ruser
  | .time => .time
  | .reqline => .reqline
  | .status => .status
  | .size => .size
  | .sizeCLF => .size
  | .elapsedSec => .elapsed
  | .header n => .header n

/-- The field write a shaped value causes (the CLF dash writes nothing). -/
def writeVal (d : Dir) (v : DVal) (e : AccessLogEntry) : AccessLogEntry :=
  match d.kind, v with
  | .host, .str s => { e with RemoteHost := s }
  | .logname, .str s => { e with RemoteLogname := s }
  | .ruser, .str s => { e with RemoteUser := s }
  | .status, .str s => { e with Status := s }
  | .reqline, .str s => { e with RequestFirstLine := NewRequestFirstLine s }
  | .header n, .str s => { e with Headers := mapSet e.Headers n s }
  | .time, .timev _ t => { e with Time := t }
  | .size, .num ds => { e with ResponseSize := (natOfDigits ds : Int) }
  | .sizeCLF, .clfNum ds => { e with ResponseSize := (natOfDigits ds : Int) }
  | .sizeCLF, .clfDash => e
  | _, _ => e

/-- The record field corresponding to a directive holds exactly the
generated value (for the CLF dash: the zero default). -/
def valueMatches (e : AccessLogEntry) (d : Dir) (v : DVal) : Prop :=
  match d.kind, v with
  | .host, .str s => e.RemoteHost = s
  | .logname, .str s => e.RemoteLogname = s
  | .ruser, .str s => e.RemoteUser = s
  | .status, .str s => e.Status = s
  | .reqline, .str s => e.RequestFirstLine = NewRequestFirstLine s
  | .header n, .str s => mapGet e.Headers n = some s
  | .time, .timev _ t => e.Time = t
  | .size, .num ds => e.ResponseSize = (natOfDigits ds : Int)
  | .sizeCLF, .clfNum ds => e.ResponseSize = (natOfDigits ds : Int)
  | .sizeCLF, .clfDash => e.ResponseSize = 0
  | _, _ => True

/-- Join with single spaces (the inverse of the format split). -/
def joinSp : List Str → Str
  | [] => []
  | [t] => t
  | t :: u :: rest => t ++ ' ' :: joinSp (u :: rest)

/-- The log line generated from shaped values: the rendered values joined
by single spaces, terminated by a newline. -/
def genLine (dvs : List (Dir × DVal)) : Str :=
  joinSp (dvs.map fun p => render p.1 p.2) ++ ['\n']

/-! Character-condition lemmas for the round trip. -/

theorem tokenChars_spec {s : Str} (h : tokenChars s = true) :
    ∀ x ∈ s, x ≠ ' ' ∧ x ≠ '\n' := by
  intro x hx
  have hb := (List.all_eq_true.mp h) x hx
  simp [isSpaceOrNl] at hb
  exact hb

theorem quotedChars_spec {s : Str} (h : quotedChars s = true) :
    ∀ x ∈ s, x ≠ '"' ∧ x ≠ '\n' := by
  intro x hx
  have hb := (List.all_eq_true.mp h) x hx
  simp at hb
  exact hb

theorem isDigit_not_spacenl {c : Char} (h : isDigit c = true) : isSpaceOrNl c = false := by
  by_cases h1 : c = ' '
  · subst h1
    simp [isDigit] at h
  · by_cases h2 : c = '\n'
    · subst h2
      simp [isDigit] at h
    · simp [isSpaceOrNl, h1, h2]

theorem digits_tokenChars {ds : Str} (h : ds.all isDigit = true) :
    ∀ x ∈ ds, x ≠ ' ' ∧ x ≠ '\n' := by
  intro x hx
  have hd := (List.all_eq_true.mp h) x hx
  have := isDigit_not_spacenl hd
  simp [isSpaceOrNl] at this
  exact this

/-- Every shaped render is nonempty and starts with a character that is
neither a space nor a newline. -/
theorem render_head {d : Dir} {v : DVal} (h : shapedB d v = true) :
    ∃ c cs, render d v = c :: cs ∧ c ≠ ' ' ∧ c ≠ '\n' := by
  obtain ⟨q, k⟩ := d
  cases v with
  | str s =>
    cases q with
    | true =>
      refine ⟨'"', s ++ ['"'], ?_, by decide, by decide⟩
      simp [render]
    | false =>
      have hs : strShape false s = true := by
        cases k <;> simp [shapedB] at h <;> try exact h
        · exact h.2
      simp [strShape] at hs
      cases s with
      | nil => simp at hs
      | cons c cs =>
        refine ⟨c, cs, by simp [render], ?_⟩
        exact tokenChars_spec hs.2 c (List.mem_cons_self c cs)
  | timev interior t => exact ⟨'[', interior ++ [']'], by simp [render], by decide, by decide⟩
  | num ds =>
    have hds : digitsShape ds = true := by
      cases k <;> simp [shapedB] at h <;> (try exact h.2)
    unfold digitsShape at hds
    rw [Bool.and_eq_true, Bool.and_eq_true] at hds
    obtain ⟨⟨hne, hall⟩, _⟩ := hds
    cases ds with
    | nil => simp at hne
    | cons c cs =>
      refine ⟨c, cs, by simp [render], ?_⟩
      exact digits_tokenChars hall c (List.mem_cons_self c cs)
  | clfNum ds =>
    have hds : digitsShape ds = true := by
      cases k <;> simp [shapedB] at h <;> (try exact h.2)
    unfold digitsShape at hds
    rw [Bool.and_eq_true, Bool.and_eq_true] at hds
    obtain ⟨⟨hne, hall⟩, _⟩ := hds
    cases ds with
    | nil => simp at hne
    | cons c cs =>
      refine ⟨c, cs, by simp [render], ?_⟩
      exact digits_tokenChars hall c (List.mem_cons_self c cs)
  | clfDash => exact ⟨'-', [], by simp [render], by decide, by decide⟩

/-! Splitting the generated format string recovers the token list. -/

theorem splitAux_no_space (t : Str) (ht : ∀ c ∈ t, c ≠ ' ') :
    ∀ (s acc : Str), splitAux (t ++ s) acc = splitAux s (t.reverse ++ acc) := by
  induction t with
  | nil => intro s acc; simp
  | cons c t' ih =>
    intro s acc
    have hc : c ≠ ' ' := ht c (List.mem_cons_self c t')
    have ih' := ih (fun x hx => ht x (List.mem_cons_of_mem c hx)) s (c :: acc)
    simp [splitAux, hc, ih']

theorem splitSpace_joinSp :
    ∀ ts : List Str, ts ≠ [] → (∀ t ∈ ts, ∀ c ∈ t, c ≠ ' ') →
      splitSpace (joinSp ts) = ts := by
  intro ts
  induction ts with
  | nil => intro h; exact absurd rfl h
  | cons t rest ih =>
    intro _ hns
    have hts : ∀ c ∈ t, c ≠ ' ' := hns t (List.mem_cons_self t rest)
    cases rest with
    | nil =>
      show splitAux (joinSp [t]) [] = [t]
      have h1 : joinSp [t] = t ++ [] := by simp [joinSp]
      rw [h1, splitAux_no_space t hts [] []]
      simp [splitAux]
    | cons u rest' =>
      show splitAux (joinSp (t :: u :: rest')) [] = t :: u :: rest'
      have h1 : joinSp (t :: u :: rest') = t ++ ' ' :: joinSp (u :: rest') := by
        simp [joinSp]
      rw [h1, splitAux_no_space t hts (' ' :: joinSp (u :: rest')) []]
      have h2 : splitAux (' ' :: joinSp (u :: rest')) (t.reverse ++ [])
          = t :: splitAux (joinSp (u :: rest')) [] := by
        simp [splitAux]
      rw [h2]
      have h3 := ih (List.cons_ne_nil u rest')
        (fun x hx => hns x (List.mem_cons_of_mem t hx))
      exact congrArg (t :: ·) h3

theorem tokenOf_no_space (d : Dir) : ∀ c ∈ tokenOf d, c ≠ ' ' := by
  obtain ⟨q, k⟩ := d
  cases k with
  | header n =>
    cases q with
    | false =>
      have he : tokenOf ⟨false, FieldKind.header n⟩ = "%\x7b...\x7di".toList := rfl
      rw [he]
      decide
    | true =>
      have he : tokenOf ⟨true, FieldKind.header n⟩
          = '"' :: ("%\x7b...\x7di".toList ++ ['"']) := rfl
      rw [he]
      decide
  | host => cases q <;> decide
  | logname => cases q <;> decide
  | ruser => cases q <;> decide
  | time => cases q <;> decide
  | reqline => cases q <;> decide
  | status => cases q <;> decide
  | size => cases q <;> decide
  | sizeCLF => cases q <;> decide
  | elapsedSec => cases q <;> decide

/-- Compiling the token of a shaped directive resolves to exactly that
directive. -/
theorem compile_tokenOf (d : Dir) (v : DVal) (h : shapedB d v = true) :
    dirOfFormat (isQuotedTok (tokenOf d)) (strippedTok (tokenOf d))
      (LookupFormat (strippedTok (tokenOf d))) = some d := by
  obtain ⟨q, k⟩ := d
  cases k with
  | host => cases q <;> decide
  | logname => cases q <;> decide
  | ruser => cases q <;> decide
  | time => cases q <;> decide
  | reqline => cases q <;> decide
  | status => cases q <;> decide
  | size => cases q <;> decide
  | sizeCLF => cases q <;> decide
  | elapsedSec => cases v <;> simp [shapedB] at h
  | header n =>
    have hn : n = "...".toList := by
      cases v <;> simp [shapedB] at h
      exact h.1
    subst hn
    cases q <;> decide

/-- Compiling the generated token list yields exactly the directive list. -/
theorem makeStateFn_tokens (dvs : List (Dir × DVal))
    (hsh : ∀ p ∈ dvs, shapedB p.1 p.2 = true) :
    makeStateFn (dvs.map fun p => tokenOf p.1) = .ok (dvs.map fun p => p.1) := by
  induction dvs with
  | nil => rfl
  | cons p rest ih =>
    have hrest := ih fun q hq => hsh q (List.mem_cons_of_mem p hq)
    have hp := compile_tokenOf p.1 p.2 (hsh p (List.mem_cons_self p rest))
    simp [makeStateFn, hrest, hp]

/-! Value extraction lemmas for the round trip. -/

theorem takeWhile_all_append {p : Char → Bool} :
    ∀ (a b : Str), a.all p = true → (∀ c ∈ b.head?, p c = false) →
      (a ++ b).takeWhile p = a := by
  intro a b ha hb
  induction a with
  | nil =>
    cases b with
    | nil => rfl
    | cons x xs =>
      have hx : p x = false := hb x rfl
      simp [List.takeWhile, hx]
  | cons c a' ih =>
    rw [List.all_cons, Bool.and_eq_true] at ha
    have := ih ha.2
    simp [List.takeWhile, ha.1, this]

theorem goParseInt64_digits (ds : Str) (h1 : ds ≠ []) (h2 : ds.all isDigit = true)
    (h3 : natOfDigits ds < 2 ^ 63) :
    goParseInt64 ds = .ok ((natOfDigits ds : Nat) : Int) := by
  cases ds with
  | nil => exact absurd rfl h1
  | cons c t =>
    rw [List.all_cons, Bool.and_eq_true] at h2
    have hcm : c ≠ '-' := by
      intro hc
      rw [hc] at h2
      exact absurd h2.1 (by decide)
    have hcp : c ≠ '+' := by
      intro hc
      rw [hc] at h2
      exact absurd h2.1 (by decide)
    have hall : (c :: t).all isDigit = true := by
      rw [List.all_cons, Bool.and_eq_true]
      exact h2
    have hle : natOfDigits (c :: t) ≤ 9223372036854775807 := by
      have h3' : natOfDigits (c :: t) < 9223372036854775808 := by
        have hp : (2 : Nat) ^ 63 = 9223372036854775808 := by norm_num
        rw [hp] at h3
        exact h3
      omega
    simp [goParseInt64, hcm, hcp, hall, hle]

/-- readInt on a digit run followed by a non-digit reads exactly the run. -/
theorem readInt_digits {line : Str} {pos : Nat} {ds rest : Str} {q : Bool}
    (hd : line.drop pos = ds ++ rest)
    (h1 : ds ≠ []) (h2 : ds.all isDigit = true) (h3 : natOfDigits ds < 2 ^ 63)
    (hrest : ∀ c ∈ rest.head?, isDigit c = false) :
    readInt line pos q = .ok (((natOfDigits ds : Nat) : Int), ds.length) := by
  cases ds with
  | nil => exact absurd rfl h1
  | cons c t =>
    rw [List.all_cons, Bool.and_eq_true] at h2
    have htw : ((t ++ rest).takeWhile isDigit) = t := takeWhile_all_append t rest h2.2 hrest
    have hoff : 1 + ((t ++ rest).takeWhile isDigit).length = (c :: t).length := by
      rw [htw]
      simp [Nat.add_comm]
    have htake : ((c :: t) ++ rest).take (c :: t).length = c :: t := take_append_len _ _
    have hparse := goParseInt64_digits (c :: t) (List.cons_ne_nil c t)
      (by rw [List.all_cons, Bool.and_eq_true]; exact h2) h3
    have hd' : line.drop pos = c :: (t ++ rest) := by simpa using hd
    simp only [readInt, hd']
    rw [h2.1]
    have hca : c :: (t ++ rest) = (c :: t) ++ rest := by simp
    rw [show (1 + ((t ++ rest).takeWhile isDigit).length) = (c :: t).length from hoff]
    rw [show (c :: (t ++ rest)).take (c :: t).length = c :: t from by
      rw [hca]; exact htake]
    rw [hparse]
    simp

/-- readString on a shaped string value reads exactly the value and
consumes exactly its rendered length. -/
theorem readString_shaped {line : Str} {pos : Nat} {q : Bool} {s : Str} {c : Char} {rt : Str}
    (hsh : strShape q s = true)
    (hd : line.drop pos = (if q then '"' :: (s ++ ['"']) else s) ++ c :: rt)
    (hc : c = ' ' ∨ c = '\n') :
    readString line pos q = .ok (s, (if q then '"' :: (s ++ ['"']) else s).length) := by
  cases q with
  | false =>
    simp only [if_neg Bool.false_ne_true] at hd ⊢
    exact readString_unquoted hd (tokenChars_spec (by
      unfold strShape at hsh
      rw [if_neg Bool.false_ne_true, Bool.and_eq_true] at hsh
      exact hsh.2)) hc
  | true =>
    simp only [if_pos rfl] at hd ⊢
    have hq : ∀ x ∈ s, x ≠ '"' := by
      intro x hx
      unfold strShape at hsh
      rw [if_pos rfl] at hsh
      exact (quotedChars_spec hsh x hx).1
    have hd' : line.drop pos = '"' :: s ++ '"' :: (c :: rt) := by
      rw [hd]
      simp
    have := readString_quoted hd' hq
    rw [this]
    simp

/-- One directive extraction: a shaped value at the cursor is read
exactly, the matching field write happens, and the consumed offset is
the rendered length. -/
theorem applyDir_extract {line : Str} {pos : Nat} {rest : Str} (d : Dir) (v : DVal)
    (e : AccessLogEntry)
    (h : shapedB d v = true)
    (hd : line.drop pos = render d v ++ rest)
    (hrest : rest.head? = some ' ' ∨ rest.head? = some '\n') :
    applyDir d e line pos = .ok (writeVal d v e, (render d v).length) := by
  obtain ⟨q, k⟩ := d
  obtain ⟨c, rt, hrtc, hc⟩ : ∃ c rt, rest = c :: rt ∧ (c = ' ' ∨ c = '\n') := by
    cases rest with
    | nil =>
      exfalso
      rcases hrest with h' | h' <;> simp at h'
    | cons c rt =>
      refine ⟨c, rt, rfl, ?_⟩
      rcases hrest with h' | h'
      · simp at h'
        exact Or.inl h'
      · simp at h'
        exact Or.inr h'
  subst hrtc
  cases v with
  | str s =>
    have hstr : strShape q s = true := by
      cases k <;> simp [shapedB] at h
      case host => exact h
      case logname => exact h
      case ruser => exact h
      case status => exact h
      case reqline => exact h
      case header => exact h.2
    have hrs := @readString_shaped line pos q s c rt hstr
      (by simpa [render] using hd) hc
    cases k with
    | host => simp [applyDir, hrs, writeVal, render]
    | logname => simp [applyDir, hrs, writeVal, render]
    | ruser => simp [applyDir, hrs, writeVal, render]
    | status => simp [applyDir, hrs, writeVal, render]
    | reqline => simp [applyDir, hrs, writeVal, render]
    | header n => simp [applyDir, hrs, writeVal, render]
    | time => simp [shapedB] at h
    | size => simp [shapedB] at h
    | sizeCLF => simp [shapedB] at h
    | elapsedSec => simp [shapedB] at h
  | timev interior t =>
    cases k with
    | time =>
      have hq : q = false := by
        cases q
        · rfl
        · simp [shapedB] at h
      subst hq
      simp only [shapedB, Bool.not_false, Bool.true_and, Bool.and_eq_true,
        decide_eq_true_eq] at h
      have hnb : ∀ x ∈ interior, x ≠ ']' := by
        intro x hx
        have := (List.all_eq_true.mp h.1) x hx
        simpa using this
      have hd' : line.drop pos = '[' :: interior ++ ']' :: (c :: rt) := by
        rw [hd]
        simp [render]
      have hrd := readDateTime_unquoted_ok hd' hnb h.2
      have hlen : (render ⟨false, FieldKind.time⟩ (DVal.timev interior t)).length
          = interior.length + 2 := by
        simp [render]
      rw [hlen]
      simp [applyDir, hrd, writeVal]
    | host => simp [shapedB] at h
    | logname => simp [shapedB] at h
    | ruser => simp [shapedB] at h
    | status => simp [shapedB] at h
    | reqline => simp [shapedB] at h
    | header n => simp [shapedB] at h
    | size => simp [shapedB] at h
    | sizeCLF => simp [shapedB] at h
    | elapsedSec => simp [shapedB] at h
  | num ds =>
    cases k with
    | size =>
      have hq : q = false := by
        cases q
        · rfl
        · simp [shapedB] at h
      subst hq
      simp only [shapedB, Bool.not_false, Bool.true_and] at h
      unfold digitsShape at h
      rw [Bool.and_eq_true, Bool.and_eq_true] at h
      obtain ⟨⟨hne, hall⟩, hlt⟩ := h
      have hne' : ds ≠ [] := by
        cases ds
        · simp at hne
        · exact List.cons_ne_nil _ _
      have hlt' : natOfDigits ds < 2 ^ 63 := of_decide_eq_true hlt
      have hrest' : ∀ x ∈ (c :: rt).head?, isDigit x = false := by
        intro x hx
        simp at hx
        subst hx
        rcases hc with h' | h' <;> subst h' <;> decide
      have hri := @readInt_digits line pos ds (c :: rt) false (by simpa [render] using hd)
        hne' hall hlt' hrest'
      simp [applyDir, hri, writeVal, render]
    | host => simp [shapedB] at h
    | logname => simp [shapedB] at h
    | ruser => simp [shapedB] at h
    | status => simp [shapedB] at h
    | reqline => simp [shapedB] at h
    | header n => simp [shapedB] at h
    | time => simp [shapedB] at h
    | sizeCLF => simp [shapedB] at h
    | elapsedSec => simp [shapedB] at h
  | clfNum ds =>
    cases k with
    | sizeCLF =>
      have hq : q = false := by
        cases q
        · rfl
        · simp [shapedB] at h
      subst hq
      simp only [shapedB, Bool.not_false, Bool.true_and] at h
      unfold digitsShape at h
      rw [Bool.and_eq_true, Bool.and_eq_true] at h
      obtain ⟨⟨hne, hall⟩, hlt⟩ := h
      have hne' : ds ≠ [] := by
        cases ds
        · simp at hne
        · exact List.cons_ne_nil _ _
      have hlt' : natOfDigits ds < 2 ^ 63 := of_decide_eq_true hlt
      have hrs := @readString_unquoted line pos ds c rt (by simpa [render] using hd)
        (digits_tokenChars hall) hc
      have hnd : ds ≠ ['-'] := by
        intro hds
        rw [hds] at hall
        simp [isDigit] at hall
      have hpi := goParseInt64_digits ds hne' hall hlt'
      simp [applyDir, hrs, hnd, hpi, writeVal, render]
    | host => simp [shapedB] at h
    | logname => simp [shapedB] at h
    | ruser => simp [shapedB] at h
    | status => simp [shapedB] at h
    | reqline => simp [shapedB] at h
    | header n => simp [shapedB] at h
    | time => simp [shapedB] at h
    | size => simp [shapedB] at h
    | elapsedSec => simp [shapedB] at h
  | clfDash =>
    cases k with
    | sizeCLF =>
      have hq : q = false := by
        cases q
        · rfl
        · simp [shapedB] at h
      subst hq
      have hrs := @readString_unquoted line pos ['-'] c rt (by simpa [render] using hd)
        (by decide) hc
      simp [applyDir, hrs, writeVal, render]
    | host => simp [shapedB] at h
    | logname => simp [shapedB] at h
    | ruser => simp [shapedB] at h
    | status => simp [shapedB] at h
    | reqline => simp [shapedB] at h
    | header n => simp [shapedB] at h
    | time => simp [shapedB] at h
    | size => simp [shapedB] at h
    | elapsedSec => simp [shapedB] at h

/-! Chain execution over a generated line. -/

theorem getq_append_len_succ {α : Type} :
    ∀ (s : List α) (x : α) (t : List α), (s ++ x :: t).get? (s.length + 1) = t.get? 0 := by
  intro s x t
  induction s with
  | nil => rfl
  | cons a s' ih => simpa using ih

theorem dropq_drop {α : Type} :
    ∀ (n : Nat) (l : List α) (m : Nat), (l.drop n).drop m = l.drop (n + m) := by
  intro n
  induction n with
  | zero => intro l m; simp
  | succ k ih =>
    intro l m
    cases l with
    | nil => simp
    | cons a t =>
      have := ih t m
      simp only [List.drop, this]
      have harith : k + 1 + m = (k + m) + 1 := by omega
      simp [harith]

theorem drop_append_len_succ {α : Type} :
    ∀ (s : List α) (x : α) (t : List α), (s ++ x :: t).drop (s.length + 1) = t := by
  intro s x t
  induction s with
  | nil => rfl
  | cons a s' ih => simpa using ih

theorem joinSp_cons (r : Str) (rs : List Str) : ∃ X, joinSp (r :: rs) = r ++ X := by
  cases rs with
  | nil => exact ⟨[], by simp [joinSp]⟩
  | cons u rest => exact ⟨' ' :: joinSp (u :: rest), rfl⟩

/-- One chain step in the middle of the line: after the extraction the
cursor sits on the separator space, skips it, sees a non-newline
character, and hands over to the rest of the chain. -/
theorem runChain_cons_step (d : Dir) (rest : List Dir) (e e1 : AccessLogEntry) (line : Str)
    (pos off : Nat) (c : Char)
    (happ : applyDir d e line pos = .ok (e1, off))
    (hat1 : charAt line (pos + off) = some ' ')
    (hat2 : charAt line (pos + off + 1) = some c)
    (hc : c ≠ '\n')
    (hrest : rest ≠ []) :
    runChain (d :: rest) e line pos = runChain rest e1 line (pos + off + 1) := by
  simp [runChain, happ, hat1, hat2, hc, hrest]

/-- The final chain step: after the extraction the cursor sits on the
newline, so the chain stops successfully. -/
theorem runChain_last (d : Dir) (rest : List Dir) (e e1 : AccessLogEntry) (line : Str)
    (pos off : Nat)
    (happ : applyDir d e line pos = .ok (e1, off))
    (hat : charAt line (pos + off) = some '\n') :
    runChain (d :: rest) e line pos = .ok e1 := by
  simp [runChain, happ, hat]

/-- Running the compiled chain of shaped directives over the generated
line succeeds and performs exactly the expected field writes, left to
right. -/
theorem runChain_gen :
    ∀ (dvs : List (Dir × DVal)) (e : AccessLogEntry) (line : Str) (pos : Nat),
      dvs ≠ [] →
      (∀ p ∈ dvs, shapedB p.1 p.2 = true) →
      line.drop pos = joinSp (dvs.map fun p => render p.1 p.2) ++ ['\n'] →
      runChain (dvs.map fun p => p.1) e line pos
        = .ok (dvs.foldl (fun acc p => writeVal p.1 p.2 acc) e) := by
  intro dvs
  induction dvs with
  | nil => intro e line pos hne; exact absurd rfl hne
  | cons p rest ih =>
    intro e line pos _ hsh hd
    have hshp := hsh p (List.mem_cons_self p rest)
    cases rest with
    | nil =>
      have hd1 : line.drop pos = render p.1 p.2 ++ ('\n' :: []) := by
        rw [hd]
        simp [joinSp]
      have happ := applyDir_extract p.1 p.2 e hshp hd1 (Or.inr rfl)
      have hat : charAt line (pos + (render p.1 p.2).length) = some '\n' := by
        rw [charAt_of_drop hd1]
        exact getq_append_len (render p.1 p.2) '\n' []
      rw [List.map_cons, List.map_nil, runChain_last p.1 [] e _ line pos _ happ hat]
      rfl
    | cons q qs =>
      have hd1 : line.drop pos = render p.1 p.2
          ++ (' ' :: (joinSp ((q :: qs).map fun r => render r.1 r.2) ++ ['\n'])) := by
        rw [hd]
        simp [joinSp]
      have happ := applyDir_extract p.1 p.2 e hshp hd1 (Or.inl rfl)
      have hat1 : charAt line (pos + (render p.1 p.2).length) = some ' ' := by
        rw [charAt_of_drop hd1]
        exact getq_append_len _ ' ' _
      obtain ⟨c, cs, hrq, hc1, hc2⟩ := render_head (hsh q (by simp))
      obtain ⟨X, hX⟩ := joinSp_cons (render q.1 q.2) (qs.map fun r => render r.1 r.2)
      have hThead : joinSp ((q :: qs).map fun r => render r.1 r.2) ++ ['\n']
          = c :: (cs ++ (X ++ ['\n'])) := by
        rw [List.map_cons, hX, hrq]
        simp
      have hat2 : charAt line (pos + (render p.1 p.2).length + 1) = some c := by
        have harith : pos + (render p.1 p.2).length + 1
            = pos + ((render p.1 p.2).length + 1) := by omega
        rw [harith, charAt_of_drop hd1]
        rw [getq_append_len_succ]
        rw [hThead]
        rfl
      have hdrop2 : line.drop (pos + (render p.1 p.2).length + 1)
          = joinSp ((q :: qs).map fun r => render r.1 r.2) ++ ['\n'] := by
        have harith : pos + (render p.1 p.2).length + 1
            = pos + ((render p.1 p.2).length + 1) := by omega
        rw [harith, ← dropq_drop, hd1]
        exact drop_append_len_succ _ _ _
      have hrec := ih (writeVal p.1 p.2 e) line (pos + (render p.1 p.2).length + 1)
        (List.cons_ne_nil q qs) (fun r hr => hsh r (List.mem_cons_of_mem p hr)) hdrop2
      rw [List.map_cons, runChain_cons_step p.1 _ e _ line pos _ c happ hat1 hat2 hc2
        (by simp), hrec]
      rfl

/-! Go map semantics lemmas for the headers mapping. -/

theorem mapGet_mapSet_self : ∀ (m : List (Str × Str)) (k v : Str),
    mapGet (mapSet m k v) k = some v := by
  intro m k v
  unfold mapSet
  by_cases hany : m.any (fun p => p.1 = k) = true
  · rw [if_pos hany]
    induction m with
    | nil => simp at hany
    | cons a m' ih =>
      by_cases ha : a.1 = k
      · simp [mapGet, List.find?, ha]
      · have hany' : m'.any (fun p => p.1 = k) = true := by
          rw [List.any_cons, Bool.or_eq_true] at hany
          rcases hany with h1 | h1
          · exact absurd (of_decide_eq_true h1) ha
          · exact h1
        have := ih hany'
        simpa [mapGet, List.find?, ha] using this
  · rw [if_neg hany]
    induction m with
    | nil => simp [mapGet, List.find?]
    | cons a m' ih =>
      have ha : ¬ a.1 = k := by
        intro hk
        exact hany (by simp [List.any_cons, hk])
      have hany' : ¬ m'.any (fun p => p.1 = k) = true := by
        intro hk
        exact hany (by simp [List.any_cons, hk])
      have := ih hany'
      simpa [mapGet, List.find?, ha] using this

theorem mapGet_mapSet_ne : ∀ (m : List (Str × Str)) (k' v' k : Str), k' ≠ k →
    mapGet (mapSet m k' v') k = mapGet m k := by
  intro m k' v' k h
  unfold mapSet
  by_cases hany : m.any (fun p => p.1 = k') = true
  · rw [if_pos hany]
    clear hany
    induction m with
    | nil => rfl
    | cons a m' ih =>
      by_cases ha : a.1 = k'
      · have h2 : ¬ a.1 = k := by
          rw [ha]
          exact h
        simpa [mapGet, List.find?, ha, h, h2] using ih
      · by_cases hak : a.1 = k
        · have hkk : ¬ k = k' := fun he => h he.symm
          simp [mapGet, List.find?, ha, hak, hkk]
        · simpa [mapGet, List.find?, ha, hak] using ih
  · rw [if_neg hany]
    clear hany
    induction m with
    | nil => simp [mapGet, List.find?, h]
    | cons a m' ih =>
      by_cases hak : a.1 = k
      · simp [mapGet, List.find?, hak]
      · simpa [mapGet, List.find?, hak] using ih

/-! Field writes with distinct targets do not interfere. -/

/-- A write to one target leaves every other target's observable slot
unchanged. -/
theorem writeVal_preserve_fields (d' : Dir) (v' : DVal) (e : AccessLogEntry) :
    (targetOf d'.kind ≠ .host → (writeVal d' v' e).RemoteHost = e.RemoteHost)
    ∧ (targetOf d'.kind ≠ .logname → (writeVal d' v' e).RemoteLogname = e.RemoteLogname)
    ∧ (targetOf d'.kind ≠ .ruser → (writeVal d' v' e).RemoteUser = e.RemoteUser)
    ∧ (targetOf d'.kind ≠ .status → (writeVal d' v' e).Status = e.Status)
    ∧ (targetOf d'.kind ≠ .reqline → (writeVal d' v' e).RequestFirstLine = e.RequestFirstLine)
    ∧ (targetOf d'.kind ≠ .time → (writeVal d' v' e).Time = e.Time)
    ∧ (targetOf d'.kind ≠ .size → (writeVal d' v' e).ResponseSize = e.ResponseSize)
    ∧ (∀ n, targetOf d'.kind ≠ .header n →
        mapGet (writeVal d' v' e).Headers n = mapGet e.Headers n) := by
  obtain ⟨q, k⟩ := d'
  cases k <;> cases v' <;>
    (try simp [writeVal, targetOf, mapGet_mapSet_ne]) <;>
    (intro n hn; exact mapGet_mapSet_ne _ _ _ _ hn)

/-- A shaped write establishes its own match (the CLF dash needs the
prior zero default). -/
theorem valueMatches_write_self (d : Dir) (v : DVal) (e : AccessLogEntry)
    (hdash : v = DVal.clfDash → e.ResponseSize = 0) :
    valueMatches (writeVal d v e) d v := by
  obtain ⟨q, k⟩ := d
  cases k <;> cases v <;>
    simp [writeVal, valueMatches, mapGet_mapSet_self] <;>
    exact hdash rfl

/-- A write to a different target preserves an established match. -/
theorem valueMatches_preserve (d' : Dir) (v' : DVal) (d : Dir) (v : DVal) (e : AccessLogEntry)
    (hne : targetOf d'.kind ≠ targetOf d.kind)
    (hm : valueMatches e d v) :
    valueMatches (writeVal d' v' e) d v := by
  have hp := writeVal_preserve_fields d' v' e
  obtain ⟨q, k⟩ := d
  cases k with
  | host =>
    cases v <;> try trivial
    case str s =>
      simp only [valueMatches] at hm ⊢
      rw [hp.1 hne]
      exact hm
  | logname =>
    cases v <;> try trivial
    case str s =>
      simp only [valueMatches] at hm ⊢
      rw [hp.2.1 hne]
      exact hm
  | ruser =>
    cases v <;> try trivial
    case str s =>
      simp only [valueMatches] at hm ⊢
      rw [hp.2.2.1 hne]
      exact hm
  | status =>
    cases v <;> try trivial
    case str s =>
      simp only [valueMatches] at hm ⊢
      rw [hp.2.2.2.1 hne]
      exact hm
  | reqline =>
    cases v <;> try trivial
    case str s =>
      simp only [valueMatches] at hm ⊢
      rw [hp.2.2.2.2.1 hne]
      exact hm
  | time =>
    cases v <;> try trivial
    case timev interior t =>
      simp only [valueMatches] at hm ⊢
      rw [hp.2.2.2.2.2.1 hne]
      exact hm
  | size =>
    cases v <;> try trivial
    case num ds =>
      simp only [valueMatches] at hm ⊢
      rw [hp.2.2.2.2.2.2.1 hne]
      exact hm
  | sizeCLF =>
    cases v <;> try trivial
    case clfNum ds =>
      simp only [valueMatches] at hm ⊢
      rw [hp.2.2.2.2.2.2.1 hne]
      exact hm
    case clfDash =>
      simp only [valueMatches] at hm ⊢
      rw [hp.2.2.2.2.2.2.1 hne]
      exact hm
  | elapsedSec => cases v <;> trivial
  | header n =>
    cases v <;> try trivial
    case str s =>
      simp only [valueMatches] at hm ⊢
      rw [hp.2.2.2.2.2.2.2 n hne]
      exact hm

theorem shapedB_clfDash_kind {d : Dir} (h : shapedB d DVal.clfDash = true) :
    d.kind = FieldKind.sizeCLF := by
  obtain ⟨q, k⟩ := d
  cases k <;> simp [shapedB] at h <;> rfl

/-- A match survives a fold of writes whose targets all differ from its
own. -/
theorem valueMatches_foldl_preserve :
    ∀ (rest : List (Dir × DVal)) (E : AccessLogEntry) (d : Dir) (v : DVal),
      (∀ r ∈ rest, targetOf r.1.kind ≠ targetOf d.kind) →
      valueMatches E d v →
      valueMatches (rest.foldl (fun acc r => writeVal r.1 r.2 acc) E) d v := by
  intro rest
  induction rest with
  | nil => intro E d v _ hm; exact hm
  | cons r rs ih =>
    intro E d v hne hm
    rw [List.foldl_cons]
    exact ih _ d v (fun x hx => hne x (List.mem_cons_of_mem r hx))
      (valueMatches_preserve r.1 r.2 d v E (hne r (List.mem_cons_self r rs)) hm)

/-- With pairwise distinct targets, the fold of all writes leaves every
directive's own value readable in its slot. -/
theorem valueMatches_foldl :
    ∀ (dvs : List (Dir × DVal)) (e : AccessLogEntry),
      (dvs.map fun p => targetOf p.1.kind).Pairwise (· ≠ ·) →
      (∀ p ∈ dvs, shapedB p.1 p.2 = true) →
      (∀ p ∈ dvs, p.2 = DVal.clfDash → e.ResponseSize = 0) →
      ∀ p ∈ dvs, valueMatches (dvs.foldl (fun acc r => writeVal r.1 r.2 acc) e) p.1 p.2 := by
  intro dvs
  induction dvs with
  | nil =>
    intro e _ _ _ p hp
    exact absurd hp (List.not_mem_nil p)
  | cons a rest ih =>
    intro e hdist hsh hz p hp
    rw [List.map_cons, List.pairwise_cons] at hdist
    obtain ⟨hhead, htail⟩ := hdist
    rw [List.foldl_cons]
    rcases List.mem_cons.mp hp with hpa | hpr
    · subst hpa
      have hbase : valueMatches (writeVal p.1 p.2 e) p.1 p.2 :=
        valueMatches_write_self p.1 p.2 e
          (fun hv => hz p (List.mem_cons_self p rest) hv)
      apply valueMatches_foldl_preserve rest _ p.1 p.2 ?_ hbase
      intro r hr
      exact (hhead (targetOf r.1.kind) (List.mem_map_of_mem _ hr)).symm
    · apply ih (writeVal a.1 a.2 e) htail
        (fun r hr => hsh r (List.mem_cons_of_mem a hr)) ?_ p hpr
      intro r hr hrd
      have h0 : e.ResponseSize = 0 := hz r (List.mem_cons_of_mem a hr) hrd
      have hrk : targetOf r.1.kind = Target.size := by
        rw [shapedB_clfDash_kind (hrd ▸ hsh r (List.mem_cons_of_mem a hr))]
        rfl
      have hane : targetOf a.1.kind ≠ Target.size := by
        intro hEq
        exact (hhead (targetOf r.1.kind) (List.mem_map_of_mem _ hr)) (hEq.trans hrk.symm)
      rw [(writeVal_preserve_fields a.1 a.2 e).2.2.2.2.2.2.1 hane]
      exact h0

/-- C1 (amended): for every nonempty sequence of directives drawn from
the compiler-supported tokens (%h, %l, %u, %t, %r, %s, %B, %b and the
literal ellipsis header token, each optionally quote-wrapped) whose
timestamp and numeric directives are unquoted, whose target fields are
pairwise distinct, and every sequence of values shaped as each directive
demands (unquoted values nonempty without space or newline, quoted
values without quote or newline, a layout-conforming bracket interior,
digit runs within the signed 64-bit range), splitting the generated
format string recovers the tokens, compiling them succeeds with exactly
the corresponding chain, and parsing the generated line succeeds and
reproduces every value exactly in the corresponding record field. -/
theorem roundtrip_amended (dvs : List (Dir × DVal))
    (hne : dvs ≠ [])
    (hsh : ∀ p ∈ dvs, shapedB p.1 p.2 = true)
    (hdist : (dvs.map fun p => targetOf p.1.kind).Pairwise (· ≠ ·)) :
    splitSpace (joinSp (dvs.map fun p => tokenOf p.1)) = (dvs.map fun p => tokenOf p.1)
    ∧ makeStateFn (dvs.map fun p => tokenOf p.1) = .ok (dvs.map fun p => p.1)
    ∧ ∃ e, runChain (dvs.map fun p => p.1) freshEntry (genLine dvs) 0 = .ok e
        ∧ ∀ p ∈ dvs, valueMatches e p.1 p.2 := by
  refine ⟨?_, makeStateFn_tokens dvs hsh, ?_⟩
  · apply splitSpace_joinSp
    · intro hmap
      exact hne (List.map_eq_nil.mp hmap)
    · intro t ht c hc
      obtain ⟨p, _, rfl⟩ := List.mem_map.mp ht
      exact tokenOf_no_space p.1 c hc
  · refine ⟨dvs.foldl (fun acc r => writeVal r.1 r.2 acc) freshEntry, ?_, ?_⟩
    · exact runChain_gen dvs freshEntry (genLine dvs) 0 hne hsh (by simp [genLine])
    · exact valueMatches_foldl dvs freshEntry hdist hsh (fun _ _ _ => rfl)

/-- C1 (witness): the amended round trip evaluated at a three-directive
format (unquoted host, quoted request line, CLF size) with concrete
shaped values. -/
theorem roundtrip_amended_witness :
    splitSpace (joinSp ([(⟨false, FieldKind.host⟩, DVal.str "127.0.0.1".toList),
        (⟨true, FieldKind.reqline⟩, DVal.str "GET /a HTTP/1.1".toList),
        (⟨false, FieldKind.sizeCLF⟩, DVal.clfNum "50122".toList)].map fun p => tokenOf p.1))
      = [(⟨false, FieldKind.host⟩, DVal.str "127.0.0.1".toList),
        (⟨true, FieldKind.reqline⟩, DVal.str "GET /a HTTP/1.1".toList),
        (⟨false, FieldKind.sizeCLF⟩, DVal.clfNum "50122".toList)].map (fun p => tokenOf p.1)
    ∧ makeStateFn ([(⟨false, FieldKind.host⟩, DVal.str "127.0.0.1".toList),
        (⟨true, FieldKind.reqline⟩, DVal.str "GET /a HTTP/1.1".toList),
        (⟨false, FieldKind.sizeCLF⟩, DVal.clfNum "50122".toList)].map fun p => tokenOf p.1)
      = .ok ([(⟨false, FieldKind.host⟩, DVal.str "127.0.0.1".toList),
        (⟨true, FieldKind.reqline⟩, DVal.str "GET /a HTTP/1.1".toList),
        (⟨false, FieldKind.sizeCLF⟩, DVal.clfNum "50122".toList)].map fun p => p.1)
    ∧ ∃ e, runChain ([(⟨false, FieldKind.host⟩, DVal.str "127.0.0.1".toList),
        (⟨true, FieldKind.reqline⟩, DVal.str "GET /a HTTP/1.1".toList),
        (⟨false, FieldKind.sizeCLF⟩, DVal.clfNum "50122".toList)].map fun p => p.1)
        freshEntry
        (genLine [(⟨false, FieldKind.host⟩, DVal.str "127.0.0.1".toList),
          (⟨true, FieldKind.reqline⟩, DVal.str "GET /a HTTP/1.1".toList),
          (⟨false, FieldKind.sizeCLF⟩, DVal.clfNum "50122".toList)]) 0 = .ok e
        ∧ ∀ p ∈ [(⟨false, FieldKind.host⟩, DVal.str "127.0.0.1".toList),
            (⟨true, FieldKind.reqline⟩, DVal.str "GET /a HTTP/1.1".toList),
            (⟨false, FieldKind.sizeCLF⟩, DVal.clfNum "50122".toList)],
            valueMatches e p.1 p.2 :=
  roundtrip_amended
    [(⟨false, FieldKind.host⟩, DVal.str "127.0.0.1".toList),
     (⟨true, FieldKind.reqline⟩, DVal.str "GET /a HTTP/1.1".toList),
     (⟨false, FieldKind.sizeCLF⟩, DVal.clfNum "50122".toList)]
    (by decide) (by decide) (by decide)

end Apachelog
